import Mathlib

/-!
# cmdg: fetch-and-cache engine and content pipeline

A shallow embedding of `src/cmdg.go`, `src/pkg/cmdg/connection.go` and
`src/openmessage.go`.

Conventions of the embedding.

* A Go `string` is a Lean `String`; one `Char` stands for one byte.
* A Go `map[string]T` is an association list with at most one entry per key
  (`GoMap`); only lookups, stores and deletes are used, never iteration order.
* A Go pointer to a heap object is the object's record together with the
  address `addr` it was allocated at, so two objects with equal fields are
  still told apart.
* Goroutines and unbuffered channels are a transition system driven by a
  schedule of events (`Event`, `step`, `exec`).
-/

namespace Cmdg

/-! ## Go maps -/

/-- A Go `map[string]α`. -/
abbrev GoMap (α : Type) := List (String × α)

/-- The lookup `v, found := m[k]`. -/
def GoMap.get? {α : Type} : GoMap α → String → Option α
  | [], _ => none
  | (k', v) :: t, k => if k' = k then some v else GoMap.get? t k

/-- The store `m[k] = v`: replaces the entry of `k` when there is one. -/
def GoMap.set {α : Type} : GoMap α → String → α → GoMap α
  | [], k, v => [(k, v)]
  | (k', v') :: t, k, v => if k' = k then (k, v) :: t else (k', v') :: GoMap.set t k v

/-- The builtin `delete(m, k)`. -/
def GoMap.delete {α : Type} : GoMap α → String → GoMap α
  | [], _ => []
  | (k', v') :: t, k => if k' = k then GoMap.delete t k else (k', v') :: GoMap.delete t k

/-! ## The Gmail message record (the fields the code reads) -/

/-- The `gmail.MessagePartBody`. -/
structure MessagePartBody where
  Data : String

/-- The `gmail.MessagePart`; `Body` is a pointer and may be nil. -/
inductive MessagePart where
  | mk (MimeType : String) (Body : Option MessagePartBody) (Parts : List MessagePart)

/-- Field `MimeType`. -/
def MessagePart.MimeType : MessagePart → String
  | .mk t _ _ => t

/-- Field `Body`. -/
def MessagePart.Body : MessagePart → Option MessagePartBody
  | .mk _ b _ => b

/-- Field `Parts`. -/
def MessagePart.Parts : MessagePart → List MessagePart
  | .mk _ _ ps => ps

/-- The `gmail.Message`; `Payload` is a pointer and may be nil. -/
structure GmailMessage where
  Id : String
  LabelIds : List String := []
  Snippet : String := ""
  Payload : Option MessagePart := none

/-! ## Fan-out / fan-in executor (`parallel`, src/cmdg.go 56-71) -/

/-- The executor. `chans` has one channel per unit, in the order of the calls
of `add`. A unit sends exactly one closure on its unbuffered channel; the
channel is represented by the closure its unit sends, a transformer of the
state `σ` the closures share. -/
structure parallel (σ : Type) where
  chans : List (σ → σ) := []

/-- The method `add`: start the unit, append its channel. -/
def parallel.add {σ : Type} (p : parallel σ) (f : σ → σ) : parallel σ :=
  { chans := p.chans ++ [f] }

/-- The method `run` as a function: for each channel in order, receive the
closure and call it. -/
def parallel.run {σ : Type} (p : parallel σ) (s : σ) : σ :=
  p.chans.foldl (fun acc f => f acc) s

/-- What can happen while `run` executes: unit `k` reaches its send
`ch <- f` (and blocks there, the channel being unbuffered), or the loop of
`run` attempts its receive `<-ch` followed by the call `f()`. -/
inductive Event where
  | finish (k : Nat)
  | recv
  deriving DecidableEq, Repr

/-- The state of an execution of `run`. -/
structure RunState (σ : Type) where
  /-- Whether unit `k` has reached its send. -/
  ready : List Bool
  /-- The index of the channel the loop of `run` is at. -/
  next : Nat
  /-- The state shared by the closures. -/
  shared : σ
  /-- The indices of the closures called so far, oldest first. -/
  trace : List Nat

/-- The state when `run` is called: no closure has been called. -/
def RunState.init {σ : Type} (p : parallel σ) (s : σ) : RunState σ :=
  { ready := List.replicate p.chans.length false, next := 0, shared := s, trace := [] }

/-- One event. A receive on channel `next` goes through only when its unit
has reached the send; otherwise the loop stays blocked and nothing changes. -/
def step {σ : Type} (p : parallel σ) (e : Event) (s : RunState σ) : RunState σ :=
  match e with
  | .finish k => { s with ready := s.ready.set k true }
  | .recv =>
    match p.chans.get? s.next with
    | none => s
    | some f =>
      if s.ready.getD s.next false then
        { s with next := s.next + 1, shared := f s.shared, trace := s.trace ++ [s.next] }
      else s

/-- A schedule of events, run from left to right. -/
def exec {σ : Type} (p : parallel σ) (evs : List Event) (s : RunState σ) : RunState σ :=
  evs.foldl (fun acc e => step p e acc) s

/-- The invariant of an execution of `run` started on the shared state `s0`. -/
def RunInv {σ : Type} (p : parallel σ) (s0 : σ) (s : RunState σ) : Prop :=
  s.trace = List.range s.next ∧ s.next ≤ p.chans.length ∧
    s.shared = parallel.run { chans := p.chans.take s.next } s0 ∧
    s.ready.length = p.chans.length

/-- Every unit has reached its send. -/
def AllReady {σ : Type} (p : parallel σ) (s : RunState σ) : Prop :=
  ∀ k, k < p.chans.length → s.ready.getD k false = true

/-- The list of messages shown (`messageList`). -/
structure messageList where
  current : Int := 0
  marked : GoMap Bool := []
  showDetails : Bool := false
  messages : List GmailMessage := []

/-- The function `list` (src/cmdg.go 80-111) after a successful listing whose
response holds the messages `res`; `get` is the answer of the per-message
`Get` call (a failing call ends the process and sends no closure). -/
def list (get : String → GmailMessage) (res : List GmailMessage) : messageList :=
  let p := res.foldl
    (fun (p : parallel messageList) m =>
      p.add (fun ret => { ret with messages := ret.messages ++ [get m.Id] }))
    {}
  p.run {}

/-- An executor with three units; unit `i` sends the closure that appends `i`. -/
def threeUnits : parallel (List Nat) :=
  ((({} : parallel (List Nat)).add (fun l => l ++ [0])).add (fun l => l ++ [1])).add
    (fun l => l ++ [2])

/-! ## Entity cache (src/pkg/cmdg/connection.go) -/

/-- The `Message` object of package cmdg, behind a pointer: `addr` is the
address of the object, `ID` the field the cache reads. -/
structure Message where
  addr : Nat
  ID : String
  deriving DecidableEq, Repr

/-- One entry of the remote label listing (`gmail.Label`). -/
structure GmailLabel where
  Id : String
  Name : String
  deriving DecidableEq, Repr

/-- The `Label` object of package cmdg, behind a pointer: `addr` is the
address of the object; `ID`, `Label` and `Response` are the fields
`LoadLabels` fills in. -/
structure Label where
  addr : Nat
  ID : String
  Label : String := ""
  Response : Option GmailLabel := none
  deriving DecidableEq, Repr

/-- The connection `CmdG`: the two caches, and the address the next
allocation `&Label{...}` gets. The mutex makes each method below atomic, so
concurrent calls are a sequence of calls. -/
structure CmdG where
  messageCache : GoMap Message := []
  labelCache : GoMap Label := []
  nextAddr : Nat := 0
  deriving DecidableEq, Repr

/-- The method `MessageCache` (connection.go 47-55): the returned object
and the connection afterwards. -/
def MessageCache (c : CmdG) (msg : Message) : Message × CmdG :=
  match c.messageCache.get? msg.ID with
  | some t => (t, c)
  | none => (msg, { c with messageCache := c.messageCache.set msg.ID msg })

/-- The method `LabelCache` (connection.go 57-65). -/
def LabelCache (c : CmdG) (label : Label) : Label × CmdG :=
  match c.labelCache.get? label.ID with
  | some t => (t, c)
  | none => (label, { c with labelCache := c.labelCache.set label.ID label })

/-- The loop body of `LoadLabels`: store a newly allocated `Label` under
the ID of the response entry `l`. -/
def LoadLabels.store (c : CmdG) (l : GmailLabel) : CmdG :=
  { c with
    labelCache := c.labelCache.set l.Id
      { addr := c.nextAddr, ID := l.Id, Label := l.Name, Response := some l }
    nextAddr := c.nextAddr + 1 }

/-- The method `LoadLabels` (connection.go 95-111); `res` is the outcome of
the remote listing call, an error text or the labels of the response. It
returns the connection afterwards and the error. -/
def LoadLabels (c : CmdG) (res : Except String (List GmailLabel)) : CmdG × Option String :=
  match res with
  | .error err => (c, some err)
  | .ok labels => (labels.foldl LoadLabels.store c, none)

/-- A sequence of `MessageCache` calls: the returned objects, in call order,
and the connection afterwards. -/
def MessageCacheAll (c : CmdG) : List Message → List Message × CmdG
  | [] => ([], c)
  | m :: ms => ((MessageCache c m).1 :: (MessageCacheAll (MessageCache c m).2 ms).1,
      (MessageCacheAll (MessageCache c m).2 ms).2)

/-- A sequence of `LabelCache` calls. -/
def LabelCacheAll (c : CmdG) : List Label → List Label × CmdG
  | [] => ([], c)
  | l :: ls => ((LabelCache c l).1 :: (LabelCacheAll (LabelCache c l).2 ls).1,
      (LabelCacheAll (LabelCache c l).2 ls).2)

/-- A cache-mutating operation on a connection. -/
inductive CacheOp where
  | messageCache (msg : Message)
  | labelCache (label : Label)
  | loadLabels (res : Except String (List GmailLabel))

/-- The connection after one operation. -/
def CacheOp.apply (c : CmdG) : CacheOp → CmdG
  | .messageCache msg => (MessageCache c msg).2
  | .labelCache label => (LabelCache c label).2
  | .loadLabels res => (LoadLabels c res).1

/-- The connection after a sequence of operations. -/
def CacheOp.applyAll (c : CmdG) (ops : List CacheOp) : CmdG :=
  ops.foldl CacheOp.apply c

/-- Whether the operation is a successful `LoadLabels` whose response has
an entry with ID `k`. -/
def CacheOp.reloads (k : String) : CacheOp → Bool
  | .loadLabels (.ok labels) => labels.any (fun l => l.Id == k)
  | _ => false

/-- The first writer for the ID `k` in a sequence of `MessageCache` calls on
the connection `c`: the object cached under `k` before the calls, or else the
argument of the first call with that ID. -/
def firstMessage (c : CmdG) (msgs : List Message) (k : String) : Option Message :=
  (c.messageCache.get? k).orElse (fun _ => msgs.find? (fun m => decide (m.ID = k)))

/-- The first writer for the ID `k` in a sequence of `LabelCache` calls. -/
def firstLabel (c : CmdG) (labels : List Label) (k : String) : Option Label :=
  (c.labelCache.get? k).orElse (fun _ => labels.find? (fun l => decide (l.ID = k)))

/-- A connection that caches the message object at address 1 under "m1". -/
def sampleConn : CmdG :=
  { messageCache := [("m1", { addr := 1, ID := "m1" })], labelCache := [], nextAddr := 10 }

/-- The `Label` that `LoadLabels` builds from the response entry `l` at the
address `a`. -/
def LoadLabels.fresh (a : Nat) (l : GmailLabel) : Label :=
  { addr := a, ID := l.Id, Label := l.Name, Response := some l }

/-- The label object a caller made at address 1 for the ID "L1". -/
def oldLabel : Label := { addr := 1, ID := "L1", Label := "Work" }

/-- The connection after `LabelCache` cached `oldLabel` in an empty cache. -/
def connWithOldLabel : CmdG := (LabelCache { nextAddr := 10 } oldLabel).2

/-! ## Content pipeline: decode (src/cmdg.go 203-227) -/

/-- The alphabet of `base64.StdEncoding`. -/
def encodeStd : List Char :=
  "ABCDEFGHIJKLMNOPQRSTUVWXYZabcdefghijklmnopqrstuvwxyz0123456789+/".data

/-- The table `decodeMap` of `base64.StdEncoding`: the position of the
character in the alphabet, `none` standing for the entry `0xff`. -/
def decodeMap (c : Char) : Option Nat :=
  if encodeStd.indexOf c < 64 then some (encodeStd.indexOf c) else none

/-- The error type `base64.CorruptInputError`: the offset of the offending
input byte. -/
structure CorruptInputError where
  offset : Nat
  deriving DecidableEq, Repr

/-- The method `Error` of `CorruptInputError`. -/
def CorruptInputError.Error (e : CorruptInputError) : String :=
  "illegal base64 data at input byte " ++ toString e.offset

/-- The loops "skip over newlines" of `decodeQuantum`: the rest of the input
and its offset. -/
def skipNewlines : List Char → Nat → List Char × Nat
  | [], si => ([], si)
  | c :: rest, si =>
    if c = '\n' ∨ c = '\r' then skipNewlines rest (si + 1) else (c :: rest, si)

/-- The end of `decodeQuantum`: the first `dlen - 1` bytes of the 24-bit
value `dbuf[0]<<18 | dbuf[1]<<12 | dbuf[2]<<6 | dbuf[3]`. -/
def quantumBytes (dbuf : List Nat) : List Char :=
  let val := dbuf.getD 0 0 <<< 18 ||| dbuf.getD 1 0 <<< 12 ||| dbuf.getD 2 0 <<< 6 |||
    dbuf.getD 3 0
  ([val >>> 16 % 256, val >>> 8 % 256, val % 256].take (dbuf.length - 1)).map Char.ofNat

/-- The method `Decode` of `base64.StdEncoding` (padding character `=`, not
strict): the loop over `decodeQuantum`. `si` is the offset of the next input
byte, `dbuf` the values of the quantum read so far (`j = dbuf.length`), `dst`
the bytes decoded so far. It returns the decoded bytes and the error. -/
def decodeLoop : List Char → Nat → List Nat → List Char → List Char × Option CorruptInputError
  | [], si, dbuf, dst =>
    if dbuf.length = 0 then (dst, none) else (dst, some ⟨si - dbuf.length⟩)
  | c :: rest, si, dbuf, dst =>
    match decodeMap c with
    | some out =>
      if dbuf.length = 3 then decodeLoop rest (si + 1) [] (dst ++ quantumBytes (dbuf ++ [out]))
      else decodeLoop rest (si + 1) (dbuf ++ [out]) dst
    | none =>
      if c = '\n' ∨ c = '\r' then decodeLoop rest (si + 1) dbuf dst
      else if c ≠ '=' then (dst, some ⟨si⟩)
      else if dbuf.length < 2 then (dst, some ⟨si⟩)
      else if dbuf.length = 2 then
        match skipNewlines rest (si + 1) with
        | ([], si') => (dst, some ⟨si'⟩)
        | (c' :: rest', si') =>
          if c' ≠ '=' then (dst, some ⟨si' - 1⟩)
          else
            match skipNewlines rest' (si' + 1) with
            | ([], _) => (dst ++ quantumBytes dbuf, none)
            | (_ :: _, si'') => (dst ++ quantumBytes dbuf, some ⟨si''⟩)
      else
        match skipNewlines rest (si + 1) with
        | ([], _) => (dst ++ quantumBytes dbuf, none)
        | (_ :: _, si'') => (dst ++ quantumBytes dbuf, some ⟨si''⟩)

/-- The call `base64.StdEncoding.DecodeString(s)`. -/
def DecodeString (s : String) : String × Option CorruptInputError :=
  (String.mk (decodeLoop s.data 0 [] []).1, (decodeLoop s.data 0 [] []).2)

/-- The call `strings.Replace(s, old, new, -1)` for one-byte `old` and
`new`. -/
def stringsReplace (s : String) (old new : Char) : String :=
  String.mk (s.data.map (fun c => if c = old then new else c))

/-- The function `mimeDecode` (src/cmdg.go 203-208). -/
def mimeDecode (s : String) : String × Option CorruptInputError :=
  let s := stringsReplace s '-' '+'
  let s := stringsReplace s '_' '/'
  DecodeString s

/-- The character of the 6-bit value `v` in the alphabet of
`base64.StdEncoding`. -/
def encodeChar (v : Nat) : Char :=
  encodeStd.getD v '='

/-- Modelled from the spec: standard padded base64 encoding of a byte string
(`base64.StdEncoding.EncodeToString`), which `mimeEncode` starts from; each
group of three bytes gives four characters, a last group of one or two bytes
is padded with `=`. -/
def EncodeToString : List Char → List Char
  | [] => []
  | [a] => [encodeChar (a.toNat / 4), encodeChar (a.toNat % 4 * 16), '=', '=']
  | [a, b] =>
    [encodeChar (a.toNat / 4), encodeChar (a.toNat % 4 * 16 + b.toNat / 16),
      encodeChar (b.toNat % 16 * 4), '=']
  | a :: b :: c :: rest =>
    encodeChar (a.toNat / 4) :: encodeChar (a.toNat % 4 * 16 + b.toNat / 16) ::
      encodeChar (b.toNat % 16 * 4 + c.toNat / 64) :: encodeChar (c.toNat % 64) ::
      EncodeToString rest

/-- Modelled from the spec: the function `mimeEncode` that `Send` calls
(connection.go 138) is defined in a file that is not under src/. It is the
transport encoding: standard base64 with `+` written as `-` and `/` written
as `_`. -/
def mimeEncode (s : String) : String :=
  stringsReplace (stringsReplace (String.mk (EncodeToString s.data)) '+' '-') '/' '_'

/-- The string is a Go string: every character stands for one byte. -/
def IsBytes (s : String) : Prop :=
  ∀ c ∈ s.data, c.toNat < 256

instance IsBytes.decidable (s : String) : Decidable (IsBytes s) :=
  inferInstanceAs (Decidable (∀ c ∈ s.data, c.toNat < 256))

/-- The string obtained by replacing every `-` with `+` and every `_` with
`/`. -/
def substituted (s : String) : String :=
  String.mk (s.data.map (fun c => if c = '-' then '+' else if c = '_' then '/' else c))

/-- Groups of four characters of the standard alphabet, the last group
possibly ending in `=` or `==`. -/
def validQuanta : List Char → Bool
  | [] => true
  | a :: b :: c :: d :: rest =>
    decide (a ∈ encodeStd) && decide (b ∈ encodeStd) &&
      ((decide (c ∈ encodeStd) && decide (d ∈ encodeStd) && validQuanta rest) ||
        (decide (c ∈ encodeStd) && d == '=' && rest.isEmpty) ||
        (c == '=' && d == '=' && rest.isEmpty))
  | _ => false

/-- Valid standard (padded) base64 as `base64.StdEncoding` reads it: line
breaks (`\r`, `\n`) are ignored, and what is left is groups of four characters
of the alphabet `A-Z a-z 0-9 + /`, the last group possibly padded with `=` or
`==`. -/
def ValidStdBase64 (s : String) : Prop :=
  validQuanta (s.data.filter (fun c => !(c == '\n' || c == '\r'))) = true

instance ValidStdBase64.decidable (s : String) : Decidable (ValidStdBase64 s) :=
  inferInstanceAs (Decidable (validQuanta _ = true))

/-- The four lines both branches of `getBody` share: decode, and on an
error return the formatted error text instead of the data. -/
def getBody.decode (data : String) : String :=
  match mimeDecode data with
  | (_, some err) => "TODO Content error: " ++ err.Error
  | (data, none) => data

/-- The loop of `getBody` over the parts: the first part whose type is
"text/plain" decides; `none` is the nil dereference of `p.Body.Data` when
that part has no body. -/
def getBody.parts : List MessagePart → Option String
  | [] => some "TODO Unknown data"
  | p :: ps =>
    if p.MimeType = "text/plain" then
      match p.Body with
      | none => none
      | some body => some (getBody.decode body.Data)
    else getBody.parts ps

/-- The function `getBody` (src/cmdg.go 209-227); `none` is a nil
dereference (of `m.Payload` or of the `Body` that is read). -/
def getBody (m : GmailMessage) : Option String :=
  match m.Payload with
  | none => none
  | some payload =>
    if payload.Parts.length = 0 then
      match payload.Body with
      | none => none
      | some body => some (getBody.decode body.Data)
    else getBody.parts payload.Parts

/-- A message without parts whose body data is not base64. -/
def badBodyMessage : GmailMessage :=
  { Id := "m1", Payload := some (.mk "text/plain" (some { Data := "!" }) []) }

/-- A message with an HTML part followed by two plain-text parts. -/
def multipartMessage : GmailMessage :=
  { Id := "m2"
    Payload := some (.mk "multipart/alternative" (some { Data := "" })
      [.mk "text/html" (some { Data := "PGI-" }) [],
        .mk "text/plain" (some { Data := "Zm9v" }) [],
        .mk "text/plain" (some { Data := "YmFy" }) []]) }

/-! ## Content pipeline: signature verification (src/openmessage.go 255-334)

The three regular expressions are compiled with `(?m)`: `^` and `$` match at
line boundaries, and no element of the patterns matches a line break, so a
match lies inside one line and the leftmost match is in the first line that
matches. They are modelled by what they match in a line. -/

/-- The text split at its line breaks `\n`. -/
def splitLines : List Char → List (List Char)
  | [] => [[]]
  | c :: rest =>
    if c = '\n' then [] :: splitLines rest
    else
      match splitLines rest with
      | [] => [[c]]
      | l :: ls => (c :: l) :: ls

/-- The line `l` without its leading `p`, when it starts with `p`. -/
def stripLeading : List Char → List Char → Option (List Char)
  | [], l => some l
  | _ :: _, [] => none
  | p :: ps, c :: cs => if p = c then stripLeading ps cs else none

/-- The class `\w` of the regular expressions: `[0-9A-Za-z_]`. -/
def isWordChar (c : Char) : Bool :=
  c.isAlphanum || c == '_'

/-- The pattern `^gpg: Signature made (.+) using \w+ key ID (\w+)$` on one
line: the two groups. The last group is the word the line ends with, the
`\w+` before " key ID " is the word before it, and `(.+)` is what is left
between the fixed text and " using ", which must not be empty. -/
def gpgKeyIDRE.matchLine (line : List Char) : Option (List Char × List Char) :=
  match stripLeading "gpg: Signature made ".data line with
  | none => none
  | some r =>
    match stripLeading " key ID ".data.reverse (r.reverse.dropWhile isWordChar) with
    | none => none
    | some r2 =>
      match stripLeading " using ".data.reverse (r2.dropWhile isWordChar) with
      | none => none
      | some x =>
        if r.reverse.takeWhile isWordChar ≠ [] ∧ r2.takeWhile isWordChar ≠ [] ∧ x ≠ [] then
          some (x.reverse, (r.reverse.takeWhile isWordChar).reverse)
        else none

/-- The call `gpgKeyIDRE.FindStringSubmatch(s)`: the match and its two
groups for the first line that matches, the empty slice when none does. -/
def gpgKeyIDRE.FindStringSubmatch (s : String) : List String :=
  match (splitLines s.data).findSome?
      (fun line => (gpgKeyIDRE.matchLine line).map
        (fun g => [String.mk line, String.mk g.1, String.mk g.2])) with
  | some m => m
  | none => []

/-- The pattern `^gpg: ((?:Can't check signature|BAD ).*)$` on one line: the
group, which is the line after "gpg: ". -/
def gpgErrorRE.matchLine (line : List Char) : Option (List Char) :=
  match stripLeading "gpg: ".data line with
  | none => none
  | some r =>
    if (stripLeading "Can't check signature".data r).isSome ∨
        (stripLeading "BAD ".data r).isSome then some r
    else none

/-- The call `gpgErrorRE.FindStringSubmatch(s)`. -/
def gpgErrorRE.FindStringSubmatch (s : String) : List String :=
  match (splitLines s.data).findSome?
      (fun line => (gpgErrorRE.matchLine line).map
        (fun g => [String.mk line, String.mk g])) with
  | some m => m
  | none => []

/-- The call `gpgUntrustedRE.MatchString(s)` for the pattern
`^gpg: WARNING: This key is not certified with a trusted signature`. -/
def gpgUntrustedRE.MatchString (s : String) : Bool :=
  (splitLines s.data).any (fun line =>
    (stripLeading "gpg: WARNING: This key is not certified with a trusted signature".data
      line).isSome)

/-- The method `Exited` of `syscall.WaitStatus` (a `uint32`, the raw wait
status of the process). -/
def WaitStatus.Exited (ws : Nat) : Bool :=
  ws &&& 0x7F == 0

/-- The method `ExitStatus` of `syscall.WaitStatus`: the exit code of a
process that exited, -1 otherwise. -/
def WaitStatus.ExitStatus (ws : Nat) : Int :=
  if WaitStatus.Exited ws then ((ws >>> 8 &&& 0xFF : Nat) : Int) else -1

/-- The method `Success` of `os.ProcessState`. -/
def ProcessState.Success (ws : Nat) : Bool :=
  WaitStatus.ExitStatus ws == 0

/-- The raw wait status of a process that exits with the code `code`. -/
def WaitStatus.ofExitCode (code : Nat) : Nat :=
  (code % 256) <<< 8

/-- What one run of the verifier command does. -/
inductive GpgRun where
  /-- The call `cmd.Start()` returns an error. -/
  | startFailed (err : String)
  /-- The call `cmd.Wait()` returns an error that is not an `*exec.ExitError`. -/
  | waitFailed (err : String)
  /-- The process ends with the raw wait status `ws`, having written `stderr`. -/
  | exited (stderr : String) (ws : Nat)
  deriving DecidableEq, Repr

/-- The external processes a call starts, in order. -/
inductive GpgEvent where
  /-- A verifier process, with the text on its standard input. -/
  | verify (stdin : String)
  /-- The key download `downloadKey(keyID)`. -/
  | download (keyID : String)
  deriving DecidableEq, Repr

/-- The block "Extract key ID." of `doOpenMessageCmdGPGVerify`. -/
def extractKeyID (stderr : String) : String :=
  let m := gpgKeyIDRE.FindStringSubmatch stderr
  if m.length = 3 then m.getD 2 "" else "Unknown"

/-- The block "Extract error message." of `doOpenMessageCmdGPGVerify`. -/
def extractError (stderr : String) : String :=
  let m := gpgErrorRE.FindStringSubmatch stderr
  if m.length = 2 then m.getD 1 "" else "Unknown"

/-- The function `doOpenMessageCmdGPGVerify` (src/openmessage.go 279-334).
`gpg stdin n` is what the `n`-th run of the verifier does when given `stdin`;
`n` counts the runs made before the call. The result is the returned pair and
the external processes started (none when `cmd.Start()` fails), or `none` when
`getBody` dereferences nil. The last branch of the source, for a `Sys()` that is not a `syscall.WaitStatus`,
cannot be taken where `uint32(ws)` compiles and is left out. -/
def doOpenMessageCmdGPGVerify (gpg : String → Nat → GpgRun) (msg : GmailMessage)
    (doDownload : Bool) (n : Nat) : Option ((String × Bool) × List GpgEvent) :=
  match getBody msg with
  | none => none
  | some body =>
    match gpg body n with
    | .startFailed err =>
      some (("Verify failed to execute: " ++ err, false), [])
    | .waitFailed err =>
      some (("Verify failed, failed to run: " ++ err, false), [.verify body])
    | .exited stderr ws =>
      let keyID := extractKeyID stderr
      let gpgError := extractError stderr
      if h : gpgError = "Can't check signature: public key not found" ∧ doDownload = true then
        match doOpenMessageCmdGPGVerify gpg msg false (n + 1) with
        | none => none
        | some r => some (r.1, [.verify body, .download keyID] ++ r.2)
      else if ProcessState.Success ws then
        if gpgUntrustedRE.MatchString stderr then
          some (("Verify succeeded, but with untrusted key", true), [.verify body])
        else some (("Verify succeeded", true), [.verify body])
      else if ws = 1 then
        some (("Signature found, but BAD", false), [.verify body])
      else
        some (("Unable to verify anything. Key ID: " ++ keyID ++ ". Error: " ++ gpgError,
          false), [.verify body])
termination_by (if doDownload = true then 1 else 0)
decreasing_by
  simp [h.2]

/-- The number of verifier processes among the events. -/
def verifierRuns (ev : List GpgEvent) : Nat :=
  (ev.filter (fun e => match e with
    | .verify _ => true
    | .download _ => false)).length

/-- The number of key downloads among the events. -/
def keyDownloads (ev : List GpgEvent) : Nat :=
  (ev.filter (fun e => match e with
    | .verify _ => false
    | .download _ => true)).length

/-- A message whose body is the text "hello". -/
def signedMessage : GmailMessage :=
  { Id := "m3", Payload := some (.mk "text/plain" (some { Data := "aGVsbG8=" }) []) }

/-- A verifier that finds a bad signature: it exits with code 1. -/
def gpgBadSignature : String → Nat → GpgRun :=
  fun _ _ => .exited
    "gpg: Signature made Tue Mar  3 10:00:00 2015 CET using RSA key ID ABCD1234\ngpg: BAD signature from \"Alice <alice@example.org>\"\n"
    (WaitStatus.ofExitCode 1)

/-- A verifier whose diagnostics report a bad signature first and a missing
public key after it (a message with two signatures); it exits with code 2. -/
def gpgTwoSignatures : String → Nat → GpgRun :=
  fun _ _ => .exited
    "gpg: Signature made Tue Mar  3 10:00:00 2015 CET using RSA key ID AAAA1111\ngpg: BAD signature from \"Alice <alice@example.org>\"\ngpg: Signature made Tue Mar  3 10:00:05 2015 CET using RSA key ID BBBB2222\ngpg: Can't check signature: public key not found\n"
    (WaitStatus.ofExitCode 2)

/-- A verifier that misses the public key on its first run and succeeds on
the next one. -/
def gpgAfterDownload : String → Nat → GpgRun :=
  fun _ n =>
    if n = 0 then
      .exited
        "gpg: Signature made Tue Mar  3 10:00:00 2015 CET using RSA key ID ABCD1234\ngpg: Can't check signature: public key not found\n"
        (WaitStatus.ofExitCode 2)
    else
      .exited
        "gpg: Signature made Tue Mar  3 10:00:00 2015 CET using RSA key ID ABCD1234\ngpg: Good signature from \"Alice <alice@example.org>\"\n"
        (WaitStatus.ofExitCode 0)

/-- A verifier command that cannot be started. -/
def gpgMissing : String → Nat → GpgRun :=
  fun _ _ => .startFailed "exec: \"gpg\": executable file not found in $PATH"

/-- A verifier that finds a good signature made with a key of marginal
trust; it exits with code 0. -/
def gpgMarginal : String → Nat → GpgRun :=
  fun _ _ => .exited
    "gpg: Signature made Tue Mar  3 10:00:00 2015 CET using RSA key ID ABCD1234\ngpg: Good signature from \"Alice <alice@example.org>\"\ngpg: WARNING: This key is not certified with sufficiently trusted signatures!\ngpg:          It is not certain that the signature belongs to the owner.\n"
    (WaitStatus.ofExitCode 0)

/-- A verifier that finds a good signature made with a key that is not
certified; it exits with code 0. -/
def gpgUntrusted : String → Nat → GpgRun :=
  fun _ _ => .exited
    "gpg: Signature made Tue Mar  3 10:00:00 2015 CET using RSA key ID ABCD1234\ngpg: Good signature from \"Alice <alice@example.org>\"\ngpg: WARNING: This key is not certified with a trusted signature!\ngpg:          There is no indication that the signature belongs to the owner.\n"
    (WaitStatus.ofExitCode 0)

/-- A verifier that finds a good signature made with a trusted key; it exits
with code 0. -/
def gpgGood : String → Nat → GpgRun :=
  fun _ _ => .exited
    "gpg: Signature made Tue Mar  3 10:00:00 2015 CET using RSA key ID ABCD1234\ngpg: Good signature from \"Alice <alice@example.org>\"\n"
    (WaitStatus.ofExitCode 0)

/-! ## Batch apply (`messagesCmdApply`, src/cmdg.go 251-289) -/

/-- The variables the completion closures of `messagesCmdApply` share: the
mark set `messages.marked` and the locals `errstr`, `ok` and `fail`. -/
structure ApplyState where
  marked : GoMap Bool
  errstr : String := ""
  ok : Nat := 0
  fail : Nat := 0

/-- The unit `messagesCmdApply` adds for the message `id`: it calls `f(id)`
once and sends one of two closures. `f id` is `none` for a nil error and the
text of the error otherwise; `quote` is `strconv.Quote`, the verb `%q`. -/
def messagesCmdApply.unit (quote : String → String) (verb : String)
    (f : String → Option String) (id : String) : ApplyState → ApplyState :=
  match f id with
  | some err => fun s =>
    { s with errstr := "Error " ++ verb ++ " " ++ quote id ++ ": " ++ err, fail := s.fail + 1 }
  | none => fun s =>
    { s with marked := s.marked.delete id, ok := s.ok + 1 }

/-- The loop of `messagesCmdApply` over `messages.messages`: one unit per
listed message that is marked. -/
def messagesCmdApply.units (quote : String → String) (verb : String)
    (f : String → Option String) (l : messageList) : parallel ApplyState :=
  l.messages.foldl
    (fun p m =>
      if !(l.marked.get? m.Id).getD false then p
      else p.add (messagesCmdApply.unit quote verb f m.Id))
    {}

/-- The variables after the call `p.run()` in `messagesCmdApply`. -/
def messagesCmdApply.afterRun (quote : String → String) (verb : String)
    (f : String → Option String) (l : messageList) : ApplyState :=
  (messagesCmdApply.units quote verb f l).run { marked := l.marked }

/-- The function `messagesCmdApply` up to the refresh `run(gmailService)`:
the mark set and the text written to the bottom view. -/
def messagesCmdApply (quote : String → String) (verb : String)
    (f : String → Option String) (l : messageList) : GoMap Bool × String :=
  let s := messagesCmdApply.afterRun quote verb f l
  if s.fail > 0 then
    (s.marked, toString s.ok ++ " " ++ verb ++ " OK, " ++ toString s.fail ++ " failed: " ++
      s.errstr)
  else ([], "OK, " ++ verb ++ " " ++ toString s.ok ++ " messages")

/-- The IDs of the listed messages that are marked, in list order. -/
def markedIds (l : messageList) : List String :=
  (l.messages.map (fun m => m.Id)).filter (fun id => (l.marked.get? id).getD false)

/-- Five listed messages, all marked, and a mark on a message not listed. -/
def fiveMarked : messageList :=
  { messages := [{ Id := "a1" }, { Id := "a2" }, { Id := "a3" }, { Id := "a4" }, { Id := "a5" }]
    marked := [("a1", true), ("a2", true), ("a3", true), ("a4", true), ("a5", true),
      ("zz", true)] }

/-- A mutation that fails for the message "a3" only. -/
def failsOnA3 : String → Option String :=
  fun id => if id = "a3" then some "googleapi: Error 500" else none

/-- The quoting of `%q` for an ID of letters and digits. -/
def quotePlain (s : String) : String :=
  "\"" ++ s ++ "\""

/-! ## Cursor of the message list (src/cmdg.go 147-164, 179-193) -/

/-- The method `next`. -/
def messageList.next (l : messageList) : messageList :=
  if l.current < (l.messages.length : Int) - 1 then { l with current := l.current + 1 } else l

/-- The method `prev`. -/
def messageList.prev (l : messageList) : messageList :=
  if l.current > 0 then { l with current := l.current - 1 } else l

/-- The method `fixCurrent`: its two `if` statements, one after the other. -/
def messageList.fixCurrent (l : messageList) : messageList :=
  let l := if l.current ≥ (l.messages.length : Int) then
    { l with current := (l.messages.length : Int) - 1 } else l
  if l.current < 0 then { l with current := 0 } else l

/-- The function `run` (src/cmdg.go 179-193) without the drawing: `messages`
is the global before the call (`none` for nil), `res` and `get` are what the
refresh `list(g)` receives. The map `marked` is never nil at its test. -/
def run (get : String → GmailMessage) (res : List GmailMessage)
    (messages : Option messageList) : messageList :=
  let current := match messages with
    | some m => m.current
    | none => 0
  let marked := match messages with
    | some m => m.marked
    | none => []
  messageList.fixCurrent { list get res with current := current, marked := marked }

/-- A list of three messages with the cursor far past the end. -/
def threeMessages : messageList :=
  { current := 7, messages := [{ Id := "a1" }, { Id := "a2" }, { Id := "a3" }] }

/-! ## Paginator (`ListMessages`, src/pkg/cmdg/connection.go 143-171) -/

/-- The constant `pageSize`. -/
def pageSize : Int := 100

/-- The constant `email` of package cmdg. -/
def email : String := "me"

/-- The request builder `gmail.UsersMessagesListCall`: the user and the
parameters set on it, `none` for a parameter that was not set. -/
structure UsersMessagesListCall where
  userId : String
  pageToken : Option String := none
  maxResults : Option Int := none
  fields : Option String := none
  q : Option String := none
  labelIds : Option (List String) := none

/-- The response `gmail.ListMessagesResponse`. -/
structure ListMessagesResponse where
  Messages : List GmailMessage := []
  NextPageToken : String := ""
  ResultSizeEstimate : Int := 0

/-- The type `Page` of package cmdg with the fields `ListMessages` fills in;
the back pointer `conn` is the connection the call returns. -/
structure Page where
  Label : String
  Query : String
  Response : ListMessagesResponse
  Messages : List Message := []

/-- The error `errors.Wrap(cause, message)`. -/
structure WrappedError where
  message : String
  cause : String
  deriving DecidableEq, Repr

/-- The loop of `ListMessages` over `res.Messages`: the appended messages and
the connection afterwards. `NewMessage` is the constructor of package cmdg,
defined in a file that is not under src/; it is given the connection and an
ID and returns a message, and it may change the connection. -/
def ListMessages.loop (NewMessage : CmdG → String → Message × CmdG) :
    CmdG → List GmailMessage → List Message × CmdG
  | c, [] => ([], c)
  | c, m :: ms =>
    ((NewMessage c m.Id).1 :: (ListMessages.loop NewMessage (NewMessage c m.Id).2 ms).1,
      (ListMessages.loop NewMessage (NewMessage c m.Id).2 ms).2)

/-- The request `ListMessages` builds. -/
def ListMessages.call (label query token : String) : UsersMessagesListCall :=
  let call : UsersMessagesListCall :=
    { userId := email, pageToken := some token, maxResults := some pageSize,
      fields := some "messages,resultSizeEstimate,nextPageToken" }
  let call := if query ≠ "" then { call with q := some query } else call
  if label ≠ "" then { call with labelIds := some [label] } else call

/-- The method `ListMessages`. `Do` is the remote end: what the listing
request `q.Do()` returns, an error text or the response. The result is the
returned page and error, the connection afterwards, and the requests issued,
in order. -/
def ListMessages (NewMessage : CmdG → String → Message × CmdG)
    (Do : UsersMessagesListCall → Except String ListMessagesResponse) (c : CmdG)
    (label query token : String) :
    (Option Page × Option WrappedError) × CmdG × List UsersMessagesListCall :=
  let q := ListMessages.call label query token
  match Do q with
  | .error err => ((none, some { message := "listing messages", cause := err }), c, [q])
  | .ok res =>
    ((some { Label := label, Query := query, Response := res,
             Messages := (ListMessages.loop NewMessage c res.Messages).1 }, none),
      (ListMessages.loop NewMessage c res.Messages).2, [q])

/-- An example constructor: it allocates a message object with the ID. -/
def allocMessage (c : CmdG) (id : String) : Message × CmdG :=
  ({ addr := c.nextAddr, ID := id }, { c with nextAddr := c.nextAddr + 1 })

/-- An example remote end: a first page of two messages for the empty token,
an error for any other token. -/
def twoMessageRemote (q : UsersMessagesListCall) : Except String ListMessagesResponse :=
  if q.pageToken = some "" then
    .ok { Messages := [{ Id := "a1" }, { Id := "a2" }], NextPageToken := "t2",
          ResultSizeEstimate := 2 }
  else .error "invalid page token"

/-! ## Sorted labels (`Labels`, src/pkg/cmdg/connection.go 113-130) -/

/-- The comparison `s < t` of two Go strings: lexicographic, byte by byte. -/
def stringLess.chars : List Char → List Char → Bool
  | [], [] => false
  | [], _ :: _ => true
  | _ :: _, [] => false
  | a :: as, b :: bs =>
    if a < b then true else if b < a then false else stringLess.chars as bs

/-- The comparison `s < t` of two Go strings. -/
def stringLess (s t : String) : Bool :=
  stringLess.chars s.data t.data

/-- The function literal `Labels` hands to `sort.Slice`, on the elements
`ret[i]` and `ret[j]`. `Inbox` is a constant of package cmdg declared in a
file that is not under src/, the ID of the primary inbox label. -/
def Labels.less (Inbox : String) (a b : Label) : Bool :=
  if a.ID = Inbox then true
  else if b.ID = Inbox then false
  else stringLess a.Label b.Label

/-- The inner loop of the insertion sort of package sort
(`for j := i; j > a && less(j, j-1); j--` with the swap): `x` moves towards
the front past every element it is less than. `pre` is the sorted part, last
element first. -/
def sortSlice.insert {α : Type} (less : α → α → Bool) (x : α) : List α → List α
  | [] => [x]
  | y :: ys => if less x y then y :: sortSlice.insert less x ys else x :: y :: ys

/-- The call `sort.Slice(ret, less)`. The library promises a permutation of
the slice in which no element is less than an element before it; the model
is the insertion sort the library runs on short slices. -/
def sortSlice {α : Type} (less : α → α → Bool) (xs : List α) : List α :=
  (xs.foldl (fun pre x => sortSlice.insert less x pre) []).reverse

/-- The method `Labels`: the returned slice and the connection. `order` is
the order in which the `range` loop visits the labels of the map, which Go
leaves open. -/
def Labels (Inbox : String) (c : CmdG) (order : List Label) : List Label × CmdG :=
  (sortSlice (Labels.less Inbox) order, c)

/-- The label cache as the methods of the connection keep it: one entry per
key, and every label stored under its own ID. -/
def LabelCacheWF (c : CmdG) : Prop :=
  (c.labelCache.map Prod.fst).Nodup ∧ ∀ e ∈ c.labelCache, e.2.ID = e.1

/-- What `Labels` promises about its result `out` for the cached labels
`cached`: the label with the ID `Inbox` comes first when there is one, and
the other labels follow in non-decreasing order of their names. -/
def InboxFirstByName (Inbox : String) (out : List Label) : Prop :=
  (∀ l ∈ out, l.ID = Inbox → out.head? = some l) ∧
  ∃ rest, (out = rest ∨ ∃ inbox, inbox.ID = Inbox ∧ out = inbox :: rest) ∧
    (∀ l ∈ rest, l.ID ≠ Inbox) ∧ rest.Pairwise (fun a b => a.Label ≤ b.Label)

/-- A connection whose label cache holds four labels. -/
def fourLabels : CmdG :=
  { labelCache := [("Label_7", { addr := 1, ID := "Label_7", Label := "Work" }),
      ("INBOX", { addr := 2, ID := "INBOX", Label := "INBOX" }),
      ("Label_2", { addr := 3, ID := "Label_2", Label := "Home" }),
      ("SENT", { addr := 4, ID := "SENT", Label := "SENT" })] }

/-! # Theorems -/

/-! ## Executor -/

theorem run_add {σ : Type} (p : parallel σ) (f : σ → σ) (s : σ) :
    (p.add f).run s = f (p.run s) := by
  simp [parallel.add, parallel.run, List.foldl_append]

theorem exec_append {σ : Type} (p : parallel σ) (e₁ e₂ : List Event) (s : RunState σ) :
    exec p (e₁ ++ e₂) s = exec p e₂ (exec p e₁ s) := by
  simp [exec, List.foldl_append]

theorem runInv_init {σ : Type} (p : parallel σ) (s0 : σ) :
    RunInv p s0 (RunState.init p s0) := by
  simp [RunInv, RunState.init, parallel.run]

theorem runInv_step {σ : Type} (p : parallel σ) (s0 : σ) (e : Event) (s : RunState σ)
    (h : RunInv p s0 s) : RunInv p s0 (step p e s) := by
  obtain ⟨h1, h2, h3, h4⟩ := h
  cases e with
  | finish k => exact ⟨h1, h2, h3, by simpa [step] using h4⟩
  | recv =>
    unfold step
    cases hf : p.chans.get? s.next with
    | none => exact ⟨h1, h2, h3, h4⟩
    | some f =>
      have hlt : s.next < p.chans.length := by
        rcases Nat.lt_or_ge s.next p.chans.length with h | h
        · exact h
        · rw [List.get?_eq_none.2 h] at hf; cases hf
      by_cases hr : s.ready.getD s.next false = true
      · simp only [hr, if_true]
        refine ⟨?_, hlt, ?_, h4⟩
        · simp [h1, List.range_succ]
        · have hget : p.chans[s.next]? = some f := by simpa using hf
          have htake : p.chans.take (s.next + 1) = p.chans.take s.next ++ [f] := by
            rw [List.take_succ, hget]; rfl
          simp only [parallel.run, htake, List.foldl_append, List.foldl_cons, List.foldl_nil]
          rw [h3]; rfl
      · simp only [hr]
        exact ⟨h1, h2, h3, h4⟩

theorem runInv_exec {σ : Type} (p : parallel σ) (s0 : σ) (evs : List Event) (s : RunState σ)
    (h : RunInv p s0 s) : RunInv p s0 (exec p evs s) := by
  induction evs generalizing s with
  | nil => exact h
  | cons e es ih => exact ih _ (runInv_step p s0 e s h)

theorem ready_step {σ : Type} (p : parallel σ) (e : Event) (s : RunState σ) (k : Nat)
    (h : s.ready.getD k false = true) : (step p e s).ready.getD k false = true := by
  cases e with
  | finish j =>
    simp only [step, List.getD_eq_getElem?_getD, List.getElem?_set] at h ⊢
    by_cases hjk : j = k
    · subst hjk
      by_cases hl : j < s.ready.length
      · simp [hl]
      · simp [List.getElem?_eq_none (Nat.le_of_not_lt hl)] at h
    · simp [hjk, h]
  | recv =>
    unfold step
    cases p.chans.get? s.next with
    | none => exact h
    | some f =>
      by_cases hr : s.ready.getD s.next false = true
      · simp only [hr, if_true]; exact h
      · simp only [hr]; exact h

theorem ready_exec {σ : Type} (p : parallel σ) (evs : List Event) (s : RunState σ) (k : Nat)
    (h : s.ready.getD k false = true) : (exec p evs s).ready.getD k false = true := by
  induction evs generalizing s with
  | nil => exact h
  | cons e es ih => exact ih _ (ready_step p e s k h)

theorem ready_finish {σ : Type} (p : parallel σ) (s : RunState σ) (k : Nat)
    (hk : k < s.ready.length) : (step p (.finish k) s).ready.getD k false = true := by
  simp [step, List.getD_eq_getElem?_getD, List.getElem?_set, hk]

theorem length_ready_step {σ : Type} (p : parallel σ) (e : Event) (s : RunState σ) :
    (step p e s).ready.length = s.ready.length := by
  cases e with
  | finish j => simp [step]
  | recv =>
    unfold step
    cases p.chans.get? s.next with
    | none => rfl
    | some f =>
      by_cases hr : s.ready.getD s.next false = true
      · simp only [hr, if_true]
      · simp only [hr]; rfl

theorem length_ready_exec {σ : Type} (p : parallel σ) (evs : List Event) (s : RunState σ) :
    (exec p evs s).ready.length = s.ready.length := by
  induction evs generalizing s with
  | nil => rfl
  | cons e es ih => exact (ih _).trans (length_ready_step p e s)

/-- After the units of `ks` have reached their send, each of them is ready. -/
theorem ready_after_finishes {σ : Type} (p : parallel σ) (ks : List Nat) (s : RunState σ)
    (k : Nat) (hk : k ∈ ks) (hlt : k < s.ready.length) :
    (exec p (ks.map Event.finish) s).ready.getD k false = true := by
  induction ks generalizing s with
  | nil => cases hk
  | cons j js ih =>
    simp only [List.map_cons]
    show (exec p (js.map Event.finish) (step p (.finish j) s)).ready.getD k false = true
    rcases List.mem_cons.1 hk with h | h
    · subst h
      exact ready_exec p _ _ _ (ready_finish p s k hlt)
    · exact ih _ h (by rw [length_ready_step]; exact hlt)

/-- With every unit at its send, `m` receives advance the loop by `m`
channels, up to the last one. -/
theorem next_after_recvs {σ : Type} (p : parallel σ) (m : Nat) (s : RunState σ)
    (hr : AllReady p s) (hle : s.next ≤ p.chans.length) :
    (exec p (List.replicate m Event.recv) s).next = min (s.next + m) p.chans.length := by
  induction m generalizing s with
  | zero => simp [exec, Nat.min_eq_left hle]
  | succ m ih =>
    simp only [List.replicate_succ]
    show (exec p (List.replicate m Event.recv) (step p .recv s)).next = _
    rcases Nat.lt_or_ge s.next p.chans.length with hlt | hge
    · have hget : p.chans.get? s.next = some (p.chans.get ⟨s.next, hlt⟩) := List.get?_eq_get hlt
      have hn : (step p .recv s).next = s.next + 1 := by
        unfold step
        simp only [hget, hr s.next hlt, if_true]
      have hrd : (step p .recv s).ready = s.ready := by
        unfold step
        simp only [hget, hr s.next hlt, if_true]
      rw [ih, hn]
      · congr 1; omega
      · intro k hk
        rw [hrd]
        exact hr k hk
      · rw [hn]; exact hlt
    · have hget : p.chans.get? s.next = none := List.get?_eq_none.2 hge
      have hstep : step p .recv s = s := by
        unfold step
        simp only [hget]
      rw [hstep, ih s hr hle]
      have : s.next = p.chans.length := Nat.le_antisymm hle hge
      omega

theorem list_fold_run (get : String → GmailMessage) (res : List GmailMessage)
    (p : parallel messageList) (s : messageList) :
    ((res.foldl (fun (p : parallel messageList) m =>
        p.add (fun ret => { ret with messages := ret.messages ++ [get m.Id] })) p).run s).messages
      = (p.run s).messages ++ res.map (fun m => get m.Id) := by
  induction res generalizing p with
  | nil => simp
  | cons m ms ih =>
    simp only [List.foldl_cons, List.map_cons]
    rw [ih, run_add]
    simp

/-- C1: in every schedule of unit completions and receives, the closures
`run` has called so far are the first `next` ones, each once and in the order
the units were added; and whatever order the units finish in, `run` returns
after calling exactly the `N` closures in submission order, its effect being
that of calling them one after the other. In `list` the messages end up in
the order of the listing response. -/
theorem parallel_run_submission_order {σ : Type} (p : parallel σ) (s0 : σ)
    (evs : List Event) (order : List Nat)
    (horder : order.Perm (List.range p.chans.length)) :
    ((exec p evs (RunState.init p s0)).trace
        = List.range (exec p evs (RunState.init p s0)).next ∧
      (exec p evs (RunState.init p s0)).next ≤ p.chans.length ∧
      (exec p evs (RunState.init p s0)).shared
        = parallel.run { chans := p.chans.take (exec p evs (RunState.init p s0)).next } s0) ∧
    ((exec p (evs ++ order.map Event.finish ++ List.replicate p.chans.length Event.recv)
        (RunState.init p s0)).next = p.chans.length ∧
      (exec p (evs ++ order.map Event.finish ++ List.replicate p.chans.length Event.recv)
        (RunState.init p s0)).trace = List.range p.chans.length ∧
      (exec p (evs ++ order.map Event.finish ++ List.replicate p.chans.length Event.recv)
        (RunState.init p s0)).shared = p.run s0) ∧
    (∀ (get : String → GmailMessage) (res : List GmailMessage),
      (list get res).messages = res.map (fun m => get m.Id)) := by
  refine ⟨?_, ?_, ?_⟩
  · obtain ⟨h1, h2, h3, _⟩ := runInv_exec p s0 evs _ (runInv_init p s0)
    exact ⟨h1, h2, h3⟩
  · have hinv := runInv_exec p s0
      (evs ++ order.map Event.finish ++ List.replicate p.chans.length Event.recv) _
      (runInv_init p s0)
    have hmid := runInv_exec p s0 (evs ++ order.map Event.finish) _ (runInv_init p s0)
    have hnext : (exec p (evs ++ order.map Event.finish ++
        List.replicate p.chans.length Event.recv) (RunState.init p s0)).next
        = p.chans.length := by
      rw [exec_append p (evs ++ order.map Event.finish), next_after_recvs]
      · have := hmid.2.1
        omega
      · intro k hk
        rw [exec_append]
        apply ready_after_finishes
        · exact horder.symm.subset (List.mem_range.2 hk)
        · rw [length_ready_exec]
          simpa [RunState.init] using hk
      · exact hmid.2.1
    obtain ⟨h1, _, h3, _⟩ := hinv
    refine ⟨hnext, ?_, ?_⟩
    · rw [h1, hnext]
    · rw [h3, hnext, List.take_length]
  · intro get res
    unfold list
    rw [list_fold_run]
    simp [parallel.run]

theorem parallel_run_submission_order_witness :
    [2, 0, 1].Perm (List.range threeUnits.chans.length) ∧
      (exec threeUnits
        ([Event.recv, Event.finish 1, Event.recv] ++ [2, 0, 1].map Event.finish ++
          List.replicate threeUnits.chans.length Event.recv)
        (RunState.init threeUnits [])).shared = [0, 1, 2] :=
  ⟨by decide,
    (parallel_run_submission_order threeUnits [] [Event.recv, Event.finish 1, Event.recv]
      [2, 0, 1] (by decide)).2.1.2.2⟩

/-! ## Entity cache -/

theorem GoMap.get?_set_self {α : Type} (m : GoMap α) (k : String) (v : α) :
    GoMap.get? (GoMap.set m k v) k = some v := by
  induction m with
  | nil => simp [GoMap.set, GoMap.get?]
  | cons e t ih =>
    obtain ⟨k', v'⟩ := e
    by_cases h : k' = k
    · simp [GoMap.set, GoMap.get?, h]
    · simp [GoMap.set, GoMap.get?, h, ih]

theorem GoMap.get?_set_ne {α : Type} (m : GoMap α) (k j : String) (v : α) (h : j ≠ k) :
    GoMap.get? (GoMap.set m k v) j = GoMap.get? m j := by
  induction m with
  | nil =>
    have h' : ¬ k = j := fun e => h e.symm
    simp [GoMap.set, GoMap.get?, h']
  | cons e t ih =>
    obtain ⟨k', v'⟩ := e
    by_cases hk : k' = k
    · have h' : ¬ k = j := fun e => h e.symm
      have h'' : ¬ k' = j := fun e => h (e.symm.trans hk)
      simp [GoMap.set, GoMap.get?, hk, h']
    · by_cases hj : k' = j
      · subst hj
        simp [GoMap.set, GoMap.get?, hk]
      · simp [GoMap.set, GoMap.get?, hk, hj, ih]

theorem MessageCache_hit (c : CmdG) (msg t : Message)
    (h : c.messageCache.get? msg.ID = some t) : MessageCache c msg = (t, c) := by
  simp [MessageCache, h]

theorem MessageCache_miss (c : CmdG) (msg : Message)
    (h : c.messageCache.get? msg.ID = none) :
    MessageCache c msg = (msg, { c with messageCache := c.messageCache.set msg.ID msg }) := by
  simp [MessageCache, h]

theorem LabelCache_hit (c : CmdG) (label t : Label)
    (h : c.labelCache.get? label.ID = some t) : LabelCache c label = (t, c) := by
  simp [LabelCache, h]

theorem LabelCache_miss (c : CmdG) (label : Label)
    (h : c.labelCache.get? label.ID = none) :
    LabelCache c label = (label, { c with labelCache := c.labelCache.set label.ID label }) := by
  simp [LabelCache, h]

/-- The lookup of `k` after `MessageCache c msg`. -/
theorem MessageCache_get? (c : CmdG) (msg : Message) (k : String) :
    (MessageCache c msg).2.messageCache.get? k
      = (c.messageCache.get? k).orElse (fun _ => if msg.ID = k then some msg else none) := by
  cases h : c.messageCache.get? msg.ID with
  | some t =>
    rw [MessageCache_hit c msg t h]
    by_cases hk : msg.ID = k
    · subst hk; simp [h]
    · cases c.messageCache.get? k <;> simp [hk]
  | none =>
    rw [MessageCache_miss c msg h]
    by_cases hk : msg.ID = k
    · subst hk; simp [GoMap.get?_set_self, h]
    · rw [GoMap.get?_set_ne _ _ _ _ (fun e => hk e.symm)]
      cases c.messageCache.get? k <;> simp [hk]

/-- The lookup of `k` after `LabelCache c label`. -/
theorem LabelCache_get? (c : CmdG) (label : Label) (k : String) :
    (LabelCache c label).2.labelCache.get? k
      = (c.labelCache.get? k).orElse (fun _ => if label.ID = k then some label else none) := by
  cases h : c.labelCache.get? label.ID with
  | some t =>
    rw [LabelCache_hit c label t h]
    by_cases hk : label.ID = k
    · subst hk; simp [h]
    · cases c.labelCache.get? k <;> simp [hk]
  | none =>
    rw [LabelCache_miss c label h]
    by_cases hk : label.ID = k
    · subst hk; simp [GoMap.get?_set_self, h]
    · rw [GoMap.get?_set_ne _ _ _ _ (fun e => hk e.symm)]
      cases c.labelCache.get? k <;> simp [hk]

/-- The object `MessageCache c msg` returns. -/
theorem MessageCache_fst (c : CmdG) (msg : Message) :
    (MessageCache c msg).1 = (c.messageCache.get? msg.ID).getD msg := by
  cases h : c.messageCache.get? msg.ID with
  | some t => rw [MessageCache_hit c msg t h]; rfl
  | none => rw [MessageCache_miss c msg h]; rfl

/-- The object `LabelCache c label` returns. -/
theorem LabelCache_fst (c : CmdG) (label : Label) :
    (LabelCache c label).1 = (c.labelCache.get? label.ID).getD label := by
  cases h : c.labelCache.get? label.ID with
  | some t => rw [LabelCache_hit c label t h]; rfl
  | none => rw [LabelCache_miss c label h]; rfl

theorem firstMessage_cons (c : CmdG) (a : Message) (rest : List Message) (k : String) :
    firstMessage (MessageCache c a).2 rest k = firstMessage c (a :: rest) k := by
  unfold firstMessage
  rw [MessageCache_get?]
  cases c.messageCache.get? k with
  | some t => simp
  | none =>
    by_cases h : a.ID = k
    · simp [h, List.find?_cons]
    · simp [h, List.find?_cons]

theorem firstLabel_cons (c : CmdG) (a : Label) (rest : List Label) (k : String) :
    firstLabel (LabelCache c a).2 rest k = firstLabel c (a :: rest) k := by
  unfold firstLabel
  rw [LabelCache_get?]
  cases c.labelCache.get? k with
  | some t => simp
  | none =>
    by_cases h : a.ID = k
    · simp [h, List.find?_cons]
    · simp [h, List.find?_cons]

theorem MessageCacheAll_spec (c : CmdG) (msgs : List Message) :
    (MessageCacheAll c msgs).1 = msgs.map (fun m => (firstMessage c msgs m.ID).getD m) ∧
    (∀ k, (MessageCacheAll c msgs).2.messageCache.get? k = firstMessage c msgs k) := by
  induction msgs generalizing c with
  | nil => simp [MessageCacheAll, firstMessage]
  | cons a rest ih =>
    obtain ⟨ih1, ih2⟩ := ih (MessageCache c a).2
    refine ⟨?_, ?_⟩
    · simp only [MessageCacheAll, List.map_cons]
      congr 1
      · rw [MessageCache_fst]
        unfold firstMessage
        cases c.messageCache.get? a.ID <;> simp [List.find?_cons]
      · rw [ih1]
        apply List.map_congr_left
        intro m _
        rw [firstMessage_cons]
    · intro k
      simp only [MessageCacheAll]
      rw [ih2, firstMessage_cons]

theorem LabelCacheAll_spec (c : CmdG) (labels : List Label) :
    (LabelCacheAll c labels).1 = labels.map (fun l => (firstLabel c labels l.ID).getD l) ∧
    (∀ k, (LabelCacheAll c labels).2.labelCache.get? k = firstLabel c labels k) := by
  induction labels generalizing c with
  | nil => simp [LabelCacheAll, firstLabel]
  | cons a rest ih =>
    obtain ⟨ih1, ih2⟩ := ih (LabelCache c a).2
    refine ⟨?_, ?_⟩
    · simp only [LabelCacheAll, List.map_cons]
      congr 1
      · rw [LabelCache_fst]
        unfold firstLabel
        cases c.labelCache.get? a.ID <;> simp [List.find?_cons]
      · rw [ih1]
        apply List.map_congr_left
        intro m _
        rw [firstLabel_cons]
    · intro k
      simp only [LabelCacheAll]
      rw [ih2, firstLabel_cons]

/-- C2: `MessageCache` and `LabelCache` are get-or-insert, first writer wins.
A call whose ID is cached returns the cached object and leaves the connection
unchanged; a call whose ID is not cached stores its argument under that ID,
returns it, and changes no other entry and not the other cache. In a sequence
of calls every call returns the first writer for its ID (the object cached
before the calls, or else the argument of the first call with that ID), and
the cache ends holding exactly the first writer for every ID. -/
theorem cache_get_or_insert (c : CmdG) (msg : Message) (label : Label)
    (msgs : List Message) (labels : List Label) :
    (∀ t, c.messageCache.get? msg.ID = some t → MessageCache c msg = (t, c)) ∧
    (c.messageCache.get? msg.ID = none →
      (MessageCache c msg).1 = msg ∧
      (MessageCache c msg).2.messageCache.get? msg.ID = some msg ∧
      (∀ k, k ≠ msg.ID → (MessageCache c msg).2.messageCache.get? k = c.messageCache.get? k) ∧
      (MessageCache c msg).2.labelCache = c.labelCache) ∧
    (∀ t, c.labelCache.get? label.ID = some t → LabelCache c label = (t, c)) ∧
    (c.labelCache.get? label.ID = none →
      (LabelCache c label).1 = label ∧
      (LabelCache c label).2.labelCache.get? label.ID = some label ∧
      (∀ k, k ≠ label.ID → (LabelCache c label).2.labelCache.get? k = c.labelCache.get? k) ∧
      (LabelCache c label).2.messageCache = c.messageCache) ∧
    ((MessageCacheAll c msgs).1 = msgs.map (fun m => (firstMessage c msgs m.ID).getD m) ∧
      ∀ k, (MessageCacheAll c msgs).2.messageCache.get? k = firstMessage c msgs k) ∧
    ((LabelCacheAll c labels).1 = labels.map (fun l => (firstLabel c labels l.ID).getD l) ∧
      ∀ k, (LabelCacheAll c labels).2.labelCache.get? k = firstLabel c labels k) := by
  refine ⟨fun t h => MessageCache_hit c msg t h, fun h => ?_,
    fun t h => LabelCache_hit c label t h, fun h => ?_,
    MessageCacheAll_spec c msgs, LabelCacheAll_spec c labels⟩
  · rw [MessageCache_miss c msg h]
    exact ⟨rfl, GoMap.get?_set_self _ _ _, fun k hk => GoMap.get?_set_ne _ _ _ _ hk, rfl⟩
  · rw [LabelCache_miss c label h]
    exact ⟨rfl, GoMap.get?_set_self _ _ _, fun k hk => GoMap.get?_set_ne _ _ _ _ hk, rfl⟩

theorem cache_get_or_insert_witness :
    sampleConn.messageCache.get? "m1" = some { addr := 1, ID := "m1" } ∧
      MessageCache sampleConn { addr := 2, ID := "m1" }
        = ({ addr := 1, ID := "m1" }, sampleConn) ∧
      sampleConn.labelCache.get? "L1" = none ∧
      (LabelCache sampleConn { addr := 3, ID := "L1" }).1 = { addr := 3, ID := "L1" } :=
  ⟨by decide,
    (cache_get_or_insert sampleConn { addr := 2, ID := "m1" } { addr := 3, ID := "L1" }
      [] []).1 _ (by decide),
    by decide,
    ((cache_get_or_insert sampleConn { addr := 2, ID := "m1" } { addr := 3, ID := "L1" }
      [] []).2.2.2.1 (by decide)).1⟩

theorem LoadLabels.store_messageCache (c : CmdG) (l : GmailLabel) :
    (LoadLabels.store c l).messageCache = c.messageCache := rfl

theorem LoadLabels.foldl_messageCache (c : CmdG) (labels : List GmailLabel) :
    (labels.foldl LoadLabels.store c).messageCache = c.messageCache := by
  induction labels generalizing c with
  | nil => rfl
  | cons l ls ih => simp only [List.foldl_cons]; rw [ih]; rfl

theorem LoadLabels.foldl_nextAddr (c : CmdG) (labels : List GmailLabel) :
    (labels.foldl LoadLabels.store c).nextAddr = c.nextAddr + labels.length := by
  induction labels generalizing c with
  | nil => rfl
  | cons l ls ih =>
    simp only [List.foldl_cons, List.length_cons]
    rw [ih]
    simp only [LoadLabels.store]
    omega

theorem LoadLabels.foldl_get?_absent (c : CmdG) (labels : List GmailLabel) (k : String)
    (h : labels.any (fun l => l.Id == k) = false) :
    (labels.foldl LoadLabels.store c).labelCache.get? k = c.labelCache.get? k := by
  induction labels generalizing c with
  | nil => rfl
  | cons l ls ih =>
    simp only [List.any_cons, Bool.or_eq_false_iff, beq_eq_false_iff_ne, ne_eq] at h
    simp only [List.foldl_cons]
    rw [ih _ h.2]
    simp only [LoadLabels.store]
    exact GoMap.get?_set_ne _ _ _ _ (fun e => h.1 e.symm)

/-- After a successful `LoadLabels`, an ID of the response is cached as the
object newly built from the last response entry with that ID. -/
theorem LoadLabels.foldl_get?_present (c : CmdG) (labels : List GmailLabel) (k : String)
    (h : labels.any (fun l => l.Id == k) = true) :
    ∃ l a, labels.reverse.find? (fun l => l.Id == k) = some l ∧
      c.nextAddr ≤ a ∧ a < c.nextAddr + labels.length ∧
      (labels.foldl LoadLabels.store c).labelCache.get? k = some (LoadLabels.fresh a l) := by
  induction labels using List.reverseRecOn with
  | nil => simp at h
  | append_singleton init x ih =>
    simp only [List.foldl_append, List.foldl_cons, List.foldl_nil, List.reverse_append,
      List.reverse_cons, List.reverse_nil, List.nil_append, List.singleton_append,
      List.length_append, List.length_singleton]
    by_cases hx : x.Id = k
    · refine ⟨x, (init.foldl LoadLabels.store c).nextAddr, ?_, ?_, ?_, ?_⟩
      · simp [List.find?_cons, hx]
      · rw [LoadLabels.foldl_nextAddr]; omega
      · rw [LoadLabels.foldl_nextAddr]; omega
      · simp only [LoadLabels.store, LoadLabels.fresh]
        rw [hx]
        exact GoMap.get?_set_self _ _ _
    · have hinit : init.any (fun l => l.Id == k) = true := by
        simpa [List.any_append, hx] using h
      obtain ⟨l, a, h1, h2, h3, h4⟩ := ih hinit
      refine ⟨l, a, ?_, h2, by omega, ?_⟩
      · simp [List.find?_cons, hx, h1]
      · simp only [LoadLabels.store]
        rw [GoMap.get?_set_ne _ _ _ _ (fun e => hx e.symm)]
        exact h4

theorem CacheOp.apply_messageCache (c : CmdG) (op : CacheOp) (k : String) (t : Message)
    (h : c.messageCache.get? k = some t) : (op.apply c).messageCache.get? k = some t := by
  cases op with
  | messageCache msg => simp only [CacheOp.apply]; rw [MessageCache_get?, h]; rfl
  | labelCache label =>
    simp only [CacheOp.apply]
    cases hl : c.labelCache.get? label.ID with
    | some u => rw [LabelCache_hit c label u hl]; exact h
    | none => rw [LabelCache_miss c label hl]; exact h
  | loadLabels res =>
    cases res with
    | error e => exact h
    | ok labels =>
      simp only [CacheOp.apply, LoadLabels]
      rw [LoadLabels.foldl_messageCache]; exact h

theorem CacheOp.apply_labelCache (c : CmdG) (op : CacheOp) (k : String) (t : Label)
    (h : c.labelCache.get? k = some t) (hop : op.reloads k = false) :
    (op.apply c).labelCache.get? k = some t := by
  cases op with
  | messageCache msg =>
    simp only [CacheOp.apply]
    cases hm : c.messageCache.get? msg.ID with
    | some u => rw [MessageCache_hit c msg u hm]; exact h
    | none => rw [MessageCache_miss c msg hm]; exact h
  | labelCache label => simp only [CacheOp.apply]; rw [LabelCache_get?, h]; rfl
  | loadLabels res =>
    cases res with
    | error e => exact h
    | ok labels =>
      simp only [CacheOp.apply, LoadLabels]
      rw [LoadLabels.foldl_get?_absent _ _ _ hop]; exact h

theorem CacheOp.applyAll_messageCache (c : CmdG) (ops : List CacheOp) (k : String)
    (t : Message) (h : c.messageCache.get? k = some t) :
    (CacheOp.applyAll c ops).messageCache.get? k = some t := by
  induction ops generalizing c with
  | nil => exact h
  | cons op rest ih => exact ih _ (CacheOp.apply_messageCache c op k t h)

theorem CacheOp.applyAll_labelCache (c : CmdG) (ops : List CacheOp) (k : String)
    (t : Label) (h : c.labelCache.get? k = some t)
    (hops : ∀ op ∈ ops, CacheOp.reloads k op = false) :
    (CacheOp.applyAll c ops).labelCache.get? k = some t := by
  induction ops generalizing c with
  | nil => exact h
  | cons op rest ih =>
    exact ih _ (CacheOp.apply_labelCache c op k t h (hops op (List.mem_cons_self _ _)))
      (fun o ho => hops o (List.mem_cons_of_mem _ ho))

/-- C3, the claim fails: the label cache holds `oldLabel` under "L1" and
`LabelCache` returns it; after a successful `LoadLabels` whose response
lists "L1", the same `LabelCache` call returns another object. -/
theorem label_identity_counterexample :
    (LabelCache connWithOldLabel { addr := 2, ID := "L1" }).1 = oldLabel ∧
    (LoadLabels connWithOldLabel (.ok [{ Id := "L1", Name := "Work" }])).2 = none ∧
    (LabelCache (LoadLabels connWithOldLabel (.ok [{ Id := "L1", Name := "Work" }])).1
      { addr := 2, ID := "L1" }).1 ≠ oldLabel := by
  decide

/-- C3 as amended: no sequence of `MessageCache`, `LabelCache` and
`LoadLabels` replaces an object of the message cache, and none replaces the
label cached under `k` unless it contains a successful `LoadLabels` whose
response lists `k`. Such a `LoadLabels` stores under `k` a newly allocated
`Label` built from the last response entry with that ID, a later `LabelCache`
call for `k` returns that new object, and it is none of the objects allocated
before. A failed `LoadLabels` changes nothing. -/
theorem cache_identity_amended (c : CmdG) (ops : List CacheOp) (k : String)
    (labels : List GmailLabel) (label : Label) (err : String) :
    (∀ t, c.messageCache.get? k = some t →
      (CacheOp.applyAll c ops).messageCache.get? k = some t) ∧
    (∀ t, c.labelCache.get? k = some t → (∀ op ∈ ops, CacheOp.reloads k op = false) →
      (CacheOp.applyAll c ops).labelCache.get? k = some t) ∧
    (labels.any (fun l => l.Id == k) = true → label.ID = k →
      ∃ l a, labels.reverse.find? (fun l => l.Id == k) = some l ∧ c.nextAddr ≤ a ∧
        (LoadLabels c (.ok labels)).2 = none ∧
        (LoadLabels c (.ok labels)).1.labelCache.get? k = some (LoadLabels.fresh a l) ∧
        (LabelCache (LoadLabels c (.ok labels)).1 label).1 = LoadLabels.fresh a l ∧
        ∀ old : Label, old.addr < c.nextAddr → LoadLabels.fresh a l ≠ old) ∧
    LoadLabels c (.error err) = (c, some err) := by
  refine ⟨fun t h => CacheOp.applyAll_messageCache c ops k t h,
    fun t h hops => CacheOp.applyAll_labelCache c ops k t h hops, fun hany hk => ?_, rfl⟩
  obtain ⟨l, a, h1, h2, _, h4⟩ := LoadLabels.foldl_get?_present c labels k hany
  refine ⟨l, a, h1, h2, rfl, h4, ?_, ?_⟩
  · rw [LabelCache_fst, hk]
    simp only [LoadLabels]
    rw [h4]; rfl
  · intro old hold heq
    rw [← heq] at hold
    simp only [LoadLabels.fresh] at hold
    omega

theorem cache_identity_amended_witness :
    connWithOldLabel.labelCache.get? "L1" = some oldLabel ∧
      (CacheOp.applyAll connWithOldLabel
        [.labelCache { addr := 2, ID := "L1" }, .messageCache { addr := 3, ID := "L1" },
          .loadLabels (.ok [{ Id := "L2", Name := "Home" }]),
          .loadLabels (.error "timeout")]).labelCache.get? "L1" = some oldLabel ∧
      ∃ l a, [({ Id := "L1", Name := "Work" } : GmailLabel)].reverse.find?
          (fun l => l.Id == "L1") = some l ∧ connWithOldLabel.nextAddr ≤ a ∧
        (LoadLabels connWithOldLabel (.ok [{ Id := "L1", Name := "Work" }])).2 = none ∧
        (LoadLabels connWithOldLabel (.ok [{ Id := "L1", Name := "Work" }])).1.labelCache.get?
          "L1" = some (LoadLabels.fresh a l) ∧
        (LabelCache (LoadLabels connWithOldLabel (.ok [{ Id := "L1", Name := "Work" }])).1
          { addr := 2, ID := "L1" }).1 = LoadLabels.fresh a l ∧
        ∀ old : Label, old.addr < connWithOldLabel.nextAddr → LoadLabels.fresh a l ≠ old :=
  ⟨by decide,
    (cache_identity_amended connWithOldLabel
      [.labelCache { addr := 2, ID := "L1" }, .messageCache { addr := 3, ID := "L1" },
        .loadLabels (.ok [{ Id := "L2", Name := "Home" }]),
        .loadLabels (.error "timeout")] "L1" [] { addr := 0, ID := "" } "").2.1 oldLabel
      (by decide) (by decide),
    (cache_identity_amended connWithOldLabel [] "L1" [{ Id := "L1", Name := "Work" }]
      { addr := 2, ID := "L1" } "").2.2.1 (by decide) (by decide)⟩

/-! ## Content pipeline: decode -/

theorem decodeMap_encodeChar : ∀ v, v < 64 → decodeMap (encodeChar v) = some v := by
  decide

theorem decodeMap_pad : decodeMap '=' = none := by decide

theorem unreplace_encodeChar : ∀ v, v < 64 →
    (fun c => if c = '_' then '/' else c) ((fun c => if c = '-' then '+' else c)
      ((fun c => if c = '/' then '_' else c) ((fun c => if c = '+' then '-' else c)
        (encodeChar v)))) = encodeChar v := by
  decide

theorem quantum_val (x y z w : Nat) (hy : y < 64) (hz : z < 64) (hw : w < 64) :
    x <<< 18 ||| y <<< 12 ||| z <<< 6 ||| w = x * 262144 + y * 4096 + z * 64 + w := by
  have h1 : z <<< 6 ||| w = z * 64 + w := by
    rw [Nat.shiftLeft_eq, Nat.mul_comm z, ← Nat.mul_add_lt_is_or (by omega)]
  have h2 : y <<< 12 ||| (z * 64 + w) = y * 4096 + (z * 64 + w) := by
    rw [Nat.shiftLeft_eq, Nat.mul_comm y, ← Nat.mul_add_lt_is_or (by omega)]
  have h3 : x <<< 18 ||| (y * 4096 + (z * 64 + w)) = x * 262144 + (y * 4096 + (z * 64 + w)) := by
    rw [Nat.shiftLeft_eq, Nat.mul_comm x, ← Nat.mul_add_lt_is_or (by omega)]
  rw [Nat.lor_assoc, Nat.lor_assoc, h1, h2, h3]
  omega

theorem quantumBytes_three (a b c : Nat) (ha : a < 256) (hb : b < 256) (hc : c < 256) :
    quantumBytes [a / 4, a % 4 * 16 + b / 16, b % 16 * 4 + c / 64, c % 64]
      = [Char.ofNat a, Char.ofNat b, Char.ofNat c] := by
  simp only [quantumBytes, List.getD_cons_zero, List.getD_cons_succ, List.length_cons,
    List.length_nil]
  rw [quantum_val _ _ _ _ (by omega) (by omega) (by omega)]
  simp only [Nat.shiftRight_eq_div_pow]
  have h1 : (a / 4 * 262144 + (a % 4 * 16 + b / 16) * 4096 + (b % 16 * 4 + c / 64) * 64 + c % 64)
      / 2 ^ 16 % 256 = a := by omega
  have h2 : (a / 4 * 262144 + (a % 4 * 16 + b / 16) * 4096 + (b % 16 * 4 + c / 64) * 64 + c % 64)
      / 2 ^ 8 % 256 = b := by omega
  have h3 : (a / 4 * 262144 + (a % 4 * 16 + b / 16) * 4096 + (b % 16 * 4 + c / 64) * 64 + c % 64)
      % 256 = c := by omega
  rw [h1, h2, h3]
  rfl

theorem quantumBytes_two (a b : Nat) (ha : a < 256) (hb : b < 256) :
    quantumBytes [a / 4, a % 4 * 16 + b / 16, b % 16 * 4] = [Char.ofNat a, Char.ofNat b] := by
  simp only [quantumBytes, List.getD_cons_zero, List.getD_cons_succ, List.length_cons,
    List.length_nil, List.getD_nil]
  rw [quantum_val _ _ _ _ (by omega) (by omega) (by omega)]
  simp only [Nat.shiftRight_eq_div_pow]
  have h1 : (a / 4 * 262144 + (a % 4 * 16 + b / 16) * 4096 + (b % 16 * 4) * 64 + 0)
      / 2 ^ 16 % 256 = a := by omega
  have h2 : (a / 4 * 262144 + (a % 4 * 16 + b / 16) * 4096 + (b % 16 * 4) * 64 + 0)
      / 2 ^ 8 % 256 = b := by omega
  rw [h1, h2]
  rfl

theorem quantumBytes_one (a : Nat) (ha : a < 256) :
    quantumBytes [a / 4, a % 4 * 16] = [Char.ofNat a] := by
  simp only [quantumBytes, List.getD_cons_zero, List.getD_cons_succ, List.length_cons,
    List.length_nil, List.getD_nil]
  rw [quantum_val _ _ _ _ (by omega) (by omega) (by omega)]
  simp only [Nat.shiftRight_eq_div_pow]
  have h1 : (a / 4 * 262144 + (a % 4 * 16) * 4096 + 0 * 64 + 0) / 2 ^ 16 % 256 = a := by omega
  rw [h1]
  rfl

theorem decodeLoop_quantum (v0 v1 v2 v3 : Nat) (h0 : v0 < 64) (h1 : v1 < 64) (h2 : v2 < 64)
    (h3 : v3 < 64) (rest : List Char) (si : Nat) (dst : List Char) :
    decodeLoop (encodeChar v0 :: encodeChar v1 :: encodeChar v2 :: encodeChar v3 :: rest)
      si [] dst = decodeLoop rest (si + 4) [] (dst ++ quantumBytes [v0, v1, v2, v3]) := by
  simp [decodeLoop, decodeMap_encodeChar, h0, h1, h2, h3, Nat.add_assoc]

theorem decodeLoop_pad2 (v0 v1 : Nat) (h0 : v0 < 64) (h1 : v1 < 64) (si : Nat)
    (dst : List Char) :
    decodeLoop [encodeChar v0, encodeChar v1, '=', '='] si [] dst
      = (dst ++ quantumBytes [v0, v1], none) := by
  simp [decodeLoop, decodeMap_encodeChar, h0, h1, decodeMap_pad, skipNewlines]

theorem decodeLoop_pad1 (v0 v1 v2 : Nat) (h0 : v0 < 64) (h1 : v1 < 64) (h2 : v2 < 64)
    (si : Nat) (dst : List Char) :
    decodeLoop [encodeChar v0, encodeChar v1, encodeChar v2, '='] si [] dst
      = (dst ++ quantumBytes [v0, v1, v2], none) := by
  simp [decodeLoop, decodeMap_encodeChar, h0, h1, h2, decodeMap_pad, skipNewlines]

theorem decodeLoop_EncodeToString (bs : List Char) (hbs : ∀ c ∈ bs, c.toNat < 256) (si : Nat)
    (dst : List Char) :
    decodeLoop (EncodeToString bs) si [] dst = (dst ++ bs, none) := by
  induction bs using EncodeToString.induct generalizing si dst with
  | case1 => simp [EncodeToString, decodeLoop]
  | case2 a =>
    have ha := hbs a (by simp)
    rw [EncodeToString, decodeLoop_pad2 _ _ (by omega) (by omega), quantumBytes_one _ ha]
    simp
  | case3 a b =>
    have ha := hbs a (by simp)
    have hb := hbs b (by simp)
    rw [EncodeToString, decodeLoop_pad1 _ _ _ (by omega) (by omega) (by omega),
      quantumBytes_two _ _ ha hb]
    simp
  | case4 a b c rest ih =>
    have ha := hbs a (by simp)
    have hb := hbs b (by simp)
    have hc := hbs c (by simp)
    rw [EncodeToString, decodeLoop_quantum _ _ _ _ (by omega) (by omega) (by omega) (by omega),
      quantumBytes_three _ _ _ ha hb hc, ih (fun x hx => hbs x (by simp [hx]))]
    simp

theorem mem_EncodeToString (bs : List Char) (hbs : ∀ c ∈ bs, c.toNat < 256) (x : Char)
    (hx : x ∈ EncodeToString bs) : (∃ v, v < 64 ∧ x = encodeChar v) ∨ x = '=' := by
  induction bs using EncodeToString.induct with
  | case1 => simp [EncodeToString] at hx
  | case2 a =>
    have ha := hbs a (by simp)
    simp only [EncodeToString, List.mem_cons, List.mem_singleton, List.not_mem_nil,
      or_false] at hx
    rcases hx with h | h | h | h
    · exact Or.inl ⟨_, by omega, h⟩
    · exact Or.inl ⟨_, by omega, h⟩
    · exact Or.inr h
    · exact Or.inr h
  | case3 a b =>
    have ha := hbs a (by simp)
    have hb := hbs b (by simp)
    simp only [EncodeToString, List.mem_cons, List.mem_singleton, List.not_mem_nil,
      or_false] at hx
    rcases hx with h | h | h | h
    · exact Or.inl ⟨_, by omega, h⟩
    · exact Or.inl ⟨_, by omega, h⟩
    · exact Or.inl ⟨_, by omega, h⟩
    · exact Or.inr h
  | case4 a b c rest ih =>
    have ha := hbs a (by simp)
    have hb := hbs b (by simp)
    have hc := hbs c (by simp)
    simp only [EncodeToString, List.mem_cons] at hx
    rcases hx with h | h | h | h | h
    · exact Or.inl ⟨_, by omega, h⟩
    · exact Or.inl ⟨_, by omega, h⟩
    · exact Or.inl ⟨_, by omega, h⟩
    · exact Or.inl ⟨_, by omega, h⟩
    · exact ih (fun x hx => hbs x (by simp [hx])) h

theorem unreplace_pad :
    (fun c => if c = '_' then '/' else c) ((fun c => if c = '-' then '+' else c)
      ((fun c => if c = '/' then '_' else c) ((fun c => if c = '+' then '-' else c) '=')))
      = '=' := by
  decide

/-- Decoding undoes the transport encoding. -/
theorem mimeDecode_mimeEncode (s : String) (hs : IsBytes s) :
    mimeDecode (mimeEncode s) = (s, none) := by
  have hmap : (EncodeToString s.data).map
      (fun x => (fun c => if c = '_' then '/' else c) ((fun c => if c = '-' then '+' else c)
        ((fun c => if c = '/' then '_' else c) ((fun c => if c = '+' then '-' else c) x))))
      = EncodeToString s.data := by
    have hid : ∀ x ∈ EncodeToString s.data,
        (fun x => (fun c => if c = '_' then '/' else c) ((fun c => if c = '-' then '+' else c)
          ((fun c => if c = '/' then '_' else c) ((fun c => if c = '+' then '-' else c) x)))) x
        = x := by
      intro x hx
      rcases mem_EncodeToString s.data hs x hx with ⟨v, hv, hxv⟩ | hxv
      · rw [hxv]; exact unreplace_encodeChar v hv
      · rw [hxv]; exact unreplace_pad
    rw [List.map_congr_left hid, List.map_id']
  unfold mimeDecode mimeEncode stringsReplace DecodeString
  simp only [List.map_map, Function.comp_def]
  rw [hmap, decodeLoop_EncodeToString s.data hs]
  rfl

theorem toNat_ofNat_lt (n : Nat) (h : n < 256) : (Char.ofNat n).toNat < 256 := by
  have hv : n.isValidChar := Or.inl (by omega)
  simp only [Char.ofNat, hv, dite_true, Char.ofNatAux, Char.toNat]
  show (UInt32.ofNat' n _).toNat < 256
  simp [UInt32.ofNat', UInt32.toNat]
  omega

theorem quantumBytes_bytes (dbuf : List Nat) : ∀ c ∈ quantumBytes dbuf, c.toNat < 256 := by
  intro c hc
  unfold quantumBytes at hc
  obtain ⟨n, hn, rfl⟩ := List.mem_map.1 hc
  have hn' := List.mem_of_mem_take hn
  simp only [List.mem_cons, List.mem_singleton, List.not_mem_nil, or_false] at hn'
  apply toNat_ofNat_lt
  rcases hn' with h | h | h <;> rw [h] <;> exact Nat.mod_lt _ (by decide)

/-- What the decoder returns is a byte string. -/
theorem decodeLoop_bytes (src : List Char) (si : Nat) (dbuf : List Nat) (dst : List Char)
    (h : ∀ c ∈ dst, c.toNat < 256) : ∀ c ∈ (decodeLoop src si dbuf dst).1, c.toNat < 256 := by
  have hq : ∀ d, ∀ c ∈ dst ++ quantumBytes d, c.toNat < 256 := by
    intro d c hc
    rcases List.mem_append.1 hc with hc | hc
    · exact h c hc
    · exact quantumBytes_bytes d c hc
  induction src generalizing si dbuf dst with
  | nil =>
    unfold decodeLoop
    split <;> exact h
  | cons c rest ih =>
    rw [decodeLoop]
    split
    · split
      · exact ih _ _ _ (hq _) (fun d => by
          intro x hx
          rcases List.mem_append.1 hx with hx | hx
          · exact hq _ x hx
          · exact quantumBytes_bytes d x hx)
      · exact ih _ _ _ h hq
    · split
      · exact ih _ _ _ h hq
      · split
        · exact h
        · split
          · exact h
          · split
            · split
              · exact h
              · split
                · exact h
                · split
                  · exact hq _
                  · exact hq _
            · split
              · exact hq _
              · exact hq _

/-- C4, the claim fails: `mimeDecode` succeeds on "++++" (standard alphabet)
and on "Zh==" (padding bits not zero), and re-encoding the decoded bytes gives
"----" and "Zg==", not the input. -/
theorem mime_reencode_counterexample :
    ((mimeDecode "++++").2 = none ∧ mimeEncode (mimeDecode "++++").1 = "----" ∧
      mimeEncode (mimeDecode "++++").1 ≠ "++++") ∧
    ((mimeDecode "Zh==").2 = none ∧ mimeEncode (mimeDecode "Zh==").1 = "Zg==" ∧
      mimeEncode (mimeDecode "Zh==").1 ≠ "Zh==") := by
  decide

/-- C4 as amended: for every blob `x` that is the transport encoding of a
byte string `b`, `mimeDecode x` succeeds and returns `b`, and re-encoding the
decoded bytes with the transport encoding yields `x` again; and the transport
encodings of byte strings are the only strings that re-encoding gives
back. -/
theorem mime_reencode_amended (x b : String) (hb : IsBytes b) (hx : x = mimeEncode b) :
    mimeDecode x = (b, none) ∧ mimeEncode (mimeDecode x).1 = x ∧
    (∀ y, mimeEncode (mimeDecode y).1 = y → ∃ b, IsBytes b ∧ y = mimeEncode b) := by
  subst hx
  rw [mimeDecode_mimeEncode b hb]
  refine ⟨rfl, rfl, ?_⟩
  intro y hy
  refine ⟨(mimeDecode y).1, ?_, hy.symm⟩
  exact decodeLoop_bytes _ 0 [] [] (by simp)

theorem mime_reencode_amended_witness :
    IsBytes "fo>?" ∧ "Zm8-Pw==" = mimeEncode "fo>?" ∧
      mimeDecode "Zm8-Pw==" = ("fo>?", none) ∧
      mimeEncode (mimeDecode "Zm8-Pw==").1 = "Zm8-Pw==" :=
  ⟨by decide, by decide,
    (mime_reencode_amended "Zm8-Pw==" "fo>?" (by decide) (by decide)).1,
    (mime_reencode_amended "Zm8-Pw==" "fo>?" (by decide) (by decide)).2.1⟩

theorem decodeMap_some_mem (c : Char) (v : Nat) (h : decodeMap c = some v) : c ∈ encodeStd := by
  unfold decodeMap at h
  split at h
  · rename_i hlt
    exact List.indexOf_lt_length.1 hlt
  · cases h

theorem decodeMap_none_not_mem (c : Char) (h : decodeMap c = none) : c ∉ encodeStd := by
  unfold decodeMap at h
  split at h
  · cases h
  · rename_i hlt
    intro hmem
    exact hlt (List.indexOf_lt_length.2 hmem)

theorem not_mem_encodeStd_special :
    '\n' ∉ encodeStd ∧ '\r' ∉ encodeStd ∧ '=' ∉ encodeStd ∧ 'A' ∈ encodeStd := by
  decide

theorem validQuanta_replace (j : Nat) (hj : j ≤ 3) (c : Char) (hc : c ∈ encodeStd)
    (l : List Char) :
    validQuanta (List.replicate j 'A' ++ c :: l)
      = validQuanta (List.replicate j 'A' ++ 'A' :: l) := by
  have hA : 'A' ∈ encodeStd := not_mem_encodeStd_special.2.2.2
  have hne : c ≠ '=' := fun e => not_mem_encodeStd_special.2.2.1 (e ▸ hc)
  have hAne : 'A' ≠ '=' := by decide
  rcases j with _ | _ | _ | _ | j
  · rcases l with _ | ⟨x, _ | ⟨y, _ | ⟨z, rest⟩⟩⟩ <;>
      simp [validQuanta, hc, hA]
  · rcases l with _ | ⟨x, _ | ⟨y, rest⟩⟩ <;>
      simp [validQuanta, hc, hA, List.replicate]
  · rcases l with _ | ⟨x, rest⟩ <;>
      simp [validQuanta, hc, hA, hne, hAne, List.replicate]
  · simp [validQuanta, hc, hA, hne, hAne, List.replicate]
  · omega

theorem validQuanta_bad (j : Nat) (hj : j ≤ 3) (c : Char) (hc : c ∉ encodeStd) (hne : c ≠ '=')
    (l : List Char) : validQuanta (List.replicate j 'A' ++ c :: l) = false := by
  rcases j with _ | _ | _ | _ | j
  · rcases l with _ | ⟨x, _ | ⟨y, _ | ⟨z, rest⟩⟩⟩ <;>
      simp [validQuanta, hc]
  · rcases l with _ | ⟨x, _ | ⟨y, rest⟩⟩ <;>
      simp [validQuanta, hc, List.replicate]
  · rcases l with _ | ⟨x, rest⟩ <;>
      simp [validQuanta, hc, hne, List.replicate]
  · simp [validQuanta, hc, hne, List.replicate]
  · omega

theorem skipNewlines_spec (rest : List Char) (si : Nat) :
    (skipNewlines rest si).1.filter (fun c => !(c == '\n' || c == '\r'))
        = rest.filter (fun c => !(c == '\n' || c == '\r')) ∧
      ∀ c t, (skipNewlines rest si).1 = c :: t → c ≠ '\n' ∧ c ≠ '\r' := by
  induction rest generalizing si with
  | nil => simp [skipNewlines]
  | cons x xs ih =>
    by_cases hx : x = '\n' ∨ x = '\r'
    · simp only [skipNewlines, hx, if_true]
      refine ⟨?_, (ih (si + 1)).2⟩
      rw [(ih (si + 1)).1]
      rcases hx with h | h <;> simp [h]
    · simp only [skipNewlines, hx, if_false]
      refine ⟨trivial, ?_⟩
      intro c t hct
      simp only [List.cons.injEq] at hct
      rw [← hct.1]
      exact ⟨fun e => hx (Or.inl e), fun e => hx (Or.inr e)⟩

theorem validQuanta_pad1 (l : List Char) :
    validQuanta ('A' :: 'A' :: 'A' :: '=' :: l) = l.isEmpty := by
  have hA : 'A' ∈ encodeStd := not_mem_encodeStd_special.2.2.2
  have hp : '=' ∉ encodeStd := not_mem_encodeStd_special.2.2.1
  simp [validQuanta, hA, hp]

theorem validQuanta_pad2 (l : List Char) :
    validQuanta ('A' :: 'A' :: '=' :: l) = decide (l = ['=']) := by
  have hA : 'A' ∈ encodeStd := not_mem_encodeStd_special.2.2.2
  have hp : '=' ∉ encodeStd := not_mem_encodeStd_special.2.2.1
  rcases l with _ | ⟨d, r⟩
  · simp [validQuanta]
  · cases r with
    | nil => by_cases h : d = '=' <;> simp [validQuanta, hA, hp, h]
    | cons y ys => simp [validQuanta, hA, hp]

theorem validQuanta_pad_early (l : List Char) :
    validQuanta ('=' :: l) = false ∧ validQuanta ('A' :: '=' :: l) = false := by
  have hp : '=' ∉ encodeStd := not_mem_encodeStd_special.2.2.1
  constructor
  · rcases l with _ | ⟨x, _ | ⟨y, _ | ⟨z, rest⟩⟩⟩ <;> simp [validQuanta, hp]
  · rcases l with _ | ⟨x, _ | ⟨y, rest⟩⟩ <;> simp [validQuanta, hp]

/-- After the padding, only line breaks may follow. -/
theorem skipNewlines_end (rest : List Char) (si : Nat) :
    (∃ s, skipNewlines rest si = ([], s) ∧
        rest.filter (fun c => !(c == '\n' || c == '\r')) = []) ∨
      (∃ x t s, skipNewlines rest si = (x :: t, s) ∧ x ≠ '\n' ∧ x ≠ '\r' ∧
        rest.filter (fun c => !(c == '\n' || c == '\r'))
          = x :: t.filter (fun c => !(c == '\n' || c == '\r'))) := by
  obtain ⟨hf, hh⟩ := skipNewlines_spec rest si
  rcases hsk : skipNewlines rest si with ⟨r, s⟩
  rw [hsk] at hf hh
  rcases r with _ | ⟨x, t⟩
  · exact Or.inl ⟨s, rfl, by simpa using hf.symm⟩
  · obtain ⟨h1, h2⟩ := hh x t rfl
    refine Or.inr ⟨x, t, s, rfl, h1, h2, ?_⟩
    rw [← hf]
    simp [h1, h2]

/-- The decoder reports no error exactly on the valid inputs; `dbuf` holds
the values of the group being read. -/
theorem decodeLoop_ok_iff (src : List Char) (si : Nat) (dbuf : List Nat) (dst : List Char)
    (hj : dbuf.length ≤ 3) :
    (decodeLoop src si dbuf dst).2 = none ↔
      validQuanta (List.replicate dbuf.length 'A' ++
        src.filter (fun c => !(c == '\n' || c == '\r'))) = true := by
  induction src generalizing si dbuf dst with
  | nil =>
    rcases dbuf with _ | ⟨a, _ | ⟨b, _ | ⟨c, _ | ⟨d, t⟩⟩⟩⟩
    · simp [decodeLoop, validQuanta]
    · simp [decodeLoop, validQuanta, List.replicate]
    · simp [decodeLoop, validQuanta, List.replicate]
    · simp [decodeLoop, validQuanta, List.replicate]
    · simp at hj
  | cons c rest ih =>
    cases hd : decodeMap c with
    | some out =>
      have hmem := decodeMap_some_mem c out hd
      have hn1 : c ≠ '\n' := fun e => not_mem_encodeStd_special.1 (e ▸ hmem)
      have hn2 : c ≠ '\r' := fun e => not_mem_encodeStd_special.2.1 (e ▸ hmem)
      have hfilter : (c :: rest).filter (fun c => !(c == '\n' || c == '\r'))
          = c :: rest.filter (fun c => !(c == '\n' || c == '\r')) := by
        simp [hn1, hn2]
      rw [hfilter, validQuanta_replace _ hj c hmem]
      by_cases h3 : dbuf.length = 3
      · have hstep : decodeLoop (c :: rest) si dbuf dst
            = decodeLoop rest (si + 1) [] (dst ++ quantumBytes (dbuf ++ [out])) := by
          rw [decodeLoop]; simp only [hd, h3, if_true]
        rw [hstep, ih _ [] _ (by simp), h3]
        have hA : 'A' ∈ encodeStd := not_mem_encodeStd_special.2.2.2
        simp [validQuanta, hA, List.replicate]
      · have hstep : decodeLoop (c :: rest) si dbuf dst
            = decodeLoop rest (si + 1) (dbuf ++ [out]) dst := by
          rw [decodeLoop]; simp only [hd, h3, if_false]
        rw [hstep, ih _ (dbuf ++ [out]) _ (by simp; omega)]
        simp only [List.length_append, List.length_singleton, List.replicate_succ',
          List.append_assoc, List.singleton_append]
    | none =>
      have hnm := decodeMap_none_not_mem c hd
      by_cases hnl : c = '\n' ∨ c = '\r'
      · have hstep : decodeLoop (c :: rest) si dbuf dst = decodeLoop rest (si + 1) dbuf dst := by
          rw [decodeLoop]; simp only [hd, hnl, if_true]
        have hfilter : (c :: rest).filter (fun c => !(c == '\n' || c == '\r'))
            = rest.filter (fun c => !(c == '\n' || c == '\r')) := by
          rcases hnl with h | h <;> simp [h]
        rw [hstep, hfilter, ih _ dbuf _ hj]
      · have hn1 : c ≠ '\n' := fun e => hnl (Or.inl e)
        have hn2 : c ≠ '\r' := fun e => hnl (Or.inr e)
        have hfilter : (c :: rest).filter (fun c => !(c == '\n' || c == '\r'))
            = c :: rest.filter (fun c => !(c == '\n' || c == '\r')) := by
          simp [hn1, hn2]
        rw [hfilter]
        by_cases hpad : c = '='
        · subst hpad
          rcases dbuf with _ | ⟨a, _ | ⟨b, _ | ⟨d, _ | ⟨e, t⟩⟩⟩⟩
          · have hstep : decodeLoop ('=' :: rest) si [] dst = (dst, some ⟨si⟩) := by
              rw [decodeLoop]; simp [hd]
            rw [hstep]
            simp [(validQuanta_pad_early _).1]
          · have hstep : decodeLoop ('=' :: rest) si [a] dst = (dst, some ⟨si⟩) := by
              rw [decodeLoop]; simp [hd]
            rw [hstep]
            simp [(validQuanta_pad_early _).2, List.replicate]
          · simp only [List.length_cons, List.length_nil, List.replicate, List.cons_append,
              List.nil_append, validQuanta_pad2]
            rcases skipNewlines_end rest (si + 1) with ⟨s, hs, hf⟩ | ⟨x, t, s, hs, hx1, hx2, hf⟩
            · have hstep : decodeLoop ('=' :: rest) si [a, b] dst = (dst, some ⟨s⟩) := by
                rw [decodeLoop]; simp [hd, hs]
              rw [hstep, hf]
              simp
            · by_cases hx : x = '='
              · subst hx
                rcases skipNewlines_end t (s + 1) with ⟨s', hs', hf'⟩ | ⟨y, u, s', hs', _, _, hf'⟩
                · have hstep : decodeLoop ('=' :: rest) si [a, b] dst
                      = (dst ++ quantumBytes [a, b], none) := by
                    rw [decodeLoop]; simp [hd, hs, hs']
                  rw [hstep, hf, hf']
                  simp
                · have hstep : decodeLoop ('=' :: rest) si [a, b] dst
                      = (dst ++ quantumBytes [a, b], some ⟨s'⟩) := by
                    rw [decodeLoop]; simp [hd, hs, hs']
                  rw [hstep, hf, hf']
                  simp
              · have hstep : decodeLoop ('=' :: rest) si [a, b] dst = (dst, some ⟨s - 1⟩) := by
                  rw [decodeLoop]; simp [hd, hs, hx]
                rw [hstep, hf]
                simp [hx]
          · simp only [List.length_cons, List.length_nil, List.replicate, List.cons_append,
              List.nil_append, validQuanta_pad1]
            rcases skipNewlines_end rest (si + 1) with ⟨s, hs, hf⟩ | ⟨x, t, s, hs, hx1, hx2, hf⟩
            · have hstep : decodeLoop ('=' :: rest) si [a, b, d] dst
                  = (dst ++ quantumBytes [a, b, d], none) := by
                rw [decodeLoop]; simp [hd, hs]
              rw [hstep, hf]
              simp
            · have hstep : decodeLoop ('=' :: rest) si [a, b, d] dst
                  = (dst ++ quantumBytes [a, b, d], some ⟨s⟩) := by
                rw [decodeLoop]; simp [hd, hs]
              rw [hstep, hf]
              simp
          · simp at hj
        · have hstep : decodeLoop (c :: rest) si dbuf dst = (dst, some ⟨si⟩) := by
            rw [decodeLoop]; simp [hd, hnl, hpad]
          rw [hstep, validQuanta_bad _ hj c hnm hpad]
          simp

theorem replace_twice_eq_substituted (s : String) :
    stringsReplace (stringsReplace s '-' '+') '_' '/' = substituted s := by
  unfold stringsReplace substituted
  simp only [List.map_map]
  congr 1
  apply List.map_congr_left
  intro c _
  by_cases h1 : c = '-'
  · subst h1; decide
  · simp [h1]

theorem substituted_of_absent (s : String) (h1 : '-' ∉ s.data) (h2 : '_' ∉ s.data) :
    substituted s = s := by
  unfold substituted
  have hid : ∀ c ∈ s.data, (fun c => if c = '-' then '+' else if c = '_' then '/' else c) c
      = c := by
    intro c hc
    have hc1 : c ≠ '-' := fun e => h1 (e ▸ hc)
    have hc2 : c ≠ '_' := fun e => h2 (e ▸ hc)
    simp [hc1, hc2]
  rw [List.map_congr_left hid, List.map_id']

/-- C5: `mimeDecode s` is standard padded base64 decoding
(`base64.StdEncoding.DecodeString`) of the string obtained from `s` by
replacing every `-` with `+` and every `_` with `/`; it returns an error if
and only if that string is not valid standard base64; and on a string with no
`-` and no `_` it is standard base64 decoding of the string itself. -/
theorem mimeDecode_is_std_decode (s : String) :
    mimeDecode s = DecodeString (substituted s) ∧
    ((mimeDecode s).2 ≠ none ↔ ¬ ValidStdBase64 (substituted s)) ∧
    ('-' ∉ s.data → '_' ∉ s.data → mimeDecode s = DecodeString s) := by
  have h1 : mimeDecode s = DecodeString (substituted s) := by
    show DecodeString (stringsReplace (stringsReplace s '-' '+') '_' '/') = _
    rw [replace_twice_eq_substituted]
  refine ⟨h1, ?_, ?_⟩
  · rw [h1]
    unfold ValidStdBase64
    have := decodeLoop_ok_iff (substituted s).data 0 [] [] (by simp)
    simp only [List.length_nil, List.replicate, List.nil_append] at this
    exact not_congr this
  · intro ha hb
    rw [h1, substituted_of_absent s ha hb]

theorem mimeDecode_is_std_decode_witness :
    '-' ∉ "Zm8=".data ∧ '_' ∉ "Zm8=".data ∧ mimeDecode "Zm8=" = DecodeString "Zm8=" :=
  ⟨by decide, by decide, (mimeDecode_is_std_decode "Zm8=").2.2 (by decide) (by decide)⟩

theorem getBody.decode_ok (data : String) (h : (mimeDecode data).2 = none) :
    getBody.decode data = (mimeDecode data).1 := by
  unfold getBody.decode
  rcases hm : mimeDecode data with ⟨d, e⟩
  rw [hm] at h
  simp only at h
  subst h
  rfl

theorem getBody.decode_error (data : String) (err : CorruptInputError)
    (h : (mimeDecode data).2 = some err) :
    getBody.decode data = "TODO Content error: " ++ err.Error := by
  unfold getBody.decode
  rcases hm : mimeDecode data with ⟨d, e⟩
  rw [hm] at h
  simp only at h
  subst h
  rfl

theorem getBody.parts_first (pre : List MessagePart) (p : MessagePart) (post : List MessagePart)
    (hpre : ∀ q ∈ pre, q.MimeType ≠ "text/plain") (hp : p.MimeType = "text/plain") :
    getBody.parts (pre ++ p :: post)
      = p.Body.map (fun body => getBody.decode body.Data) := by
  induction pre with
  | nil =>
    simp only [List.nil_append, getBody.parts, hp, if_true]
    cases p.Body <;> rfl
  | cons q qs ih =>
    have hq := hpre q (List.mem_cons_self _ _)
    simp only [List.cons_append, getBody.parts, hq, if_false]
    exact ih (fun r hr => hpre r (List.mem_cons_of_mem _ hr))

theorem getBody.parts_none (ps : List MessagePart)
    (h : ∀ q ∈ ps, q.MimeType ≠ "text/plain") :
    getBody.parts ps = some "TODO Unknown data" := by
  induction ps with
  | nil => rfl
  | cons q qs ih =>
    have hq := h q (List.mem_cons_self _ _)
    simp only [getBody.parts, hq, if_false]
    exact ih (fun r hr => h r (List.mem_cons_of_mem _ hr))

/-- C6, the claim fails: the body data "!" of a message without parts does
not decode, and `getBody` returns the text of the error, not the decoding of
the body data. -/
theorem getBody_counterexample :
    (mimeDecode "!").2 = some ⟨0⟩ ∧
    getBody badBodyMessage
      = some "TODO Content error: illegal base64 data at input byte 0" ∧
    getBody badBodyMessage ≠ some (mimeDecode "!").1 := by
  decide

/-- C6 as amended: for a message with a payload, `getBody` returns, when the
payload has no parts, the decoded top-level body data if `mimeDecode`
succeeds on it and the text "TODO Content error: " followed by the error if
not; when the payload has parts, the same for the body data of the first part
whose type is exactly "text/plain", whatever parts follow it; and the
sentinel "TODO Unknown data" when it has parts and none is "text/plain".
(The body that is read has to be present.) -/
theorem getBody_amended (m : GmailMessage) (payload : MessagePart)
    (hm : m.Payload = some payload) :
    (payload.Parts = [] → ∀ body, payload.Body = some body →
      ((mimeDecode body.Data).2 = none → getBody m = some (mimeDecode body.Data).1) ∧
      (∀ err, (mimeDecode body.Data).2 = some err →
        getBody m = some ("TODO Content error: " ++ err.Error))) ∧
    (∀ pre p post body, payload.Parts = pre ++ p :: post →
      (∀ q ∈ pre, q.MimeType ≠ "text/plain") → p.MimeType = "text/plain" →
      p.Body = some body →
      ((mimeDecode body.Data).2 = none → getBody m = some (mimeDecode body.Data).1) ∧
      (∀ err, (mimeDecode body.Data).2 = some err →
        getBody m = some ("TODO Content error: " ++ err.Error))) ∧
    (payload.Parts ≠ [] → (∀ q ∈ payload.Parts, q.MimeType ≠ "text/plain") →
      getBody m = some "TODO Unknown data") := by
  refine ⟨?_, ?_, ?_⟩
  · intro hparts body hbody
    have hg : getBody m = some (getBody.decode body.Data) := by
      simp [getBody, hm, hparts, hbody]
    rw [hg]
    exact ⟨fun h => by rw [getBody.decode_ok _ h],
      fun err h => by rw [getBody.decode_error _ err h]⟩
  · intro pre p post body hparts hpre hp hbody
    have hg : getBody m = some (getBody.decode body.Data) := by
      simp only [getBody, hm, hparts]
      rw [if_neg (by simp), getBody.parts_first pre p post hpre hp, hbody]
      rfl
    rw [hg]
    exact ⟨fun h => by rw [getBody.decode_ok _ h],
      fun err h => by rw [getBody.decode_error _ err h]⟩
  · intro hparts hnone
    have hlen : ¬ payload.Parts.length = 0 := by
      intro h
      exact hparts (List.length_eq_zero.1 h)
    simp only [getBody, hm, hlen, if_false]
    exact getBody.parts_none _ hnone

theorem getBody_amended_witness :
    (mimeDecode "Zm9v").2 = none ∧ getBody multipartMessage = some "foo" :=
  ⟨by decide,
    ((getBody_amended multipartMessage
        (.mk "multipart/alternative" (some { Data := "" })
          [.mk "text/html" (some { Data := "PGI-" }) [],
            .mk "text/plain" (some { Data := "Zm9v" }) [],
            .mk "text/plain" (some { Data := "YmFy" }) []]) rfl).2.1
      [.mk "text/html" (some { Data := "PGI-" }) []]
      (.mk "text/plain" (some { Data := "Zm9v" }) [])
      [.mk "text/plain" (some { Data := "YmFy" }) []]
      { Data := "Zm9v" } rfl (by decide) (by decide) rfl).1 (by decide)⟩

/-! ## Content pipeline: signature verification -/

/-- C7, the code at the failing input: the verifier reports a bad signature
and exits with code 1, which is the raw wait status 256; the switch compares
the raw wait status with 1, so the result is "Unable to verify anything",
not "Signature found, but BAD". -/
theorem bad_signature_exit_code_not_classified :
    WaitStatus.ofExitCode 1 = 256 ∧
    WaitStatus.ExitStatus (WaitStatus.ofExitCode 1) = 1 ∧
    (doOpenMessageCmdGPGVerify gpgBadSignature signedMessage false 0).map (fun r => r.1)
      = some ("Unable to verify anything. Key ID: ABCD1234. Error: BAD signature from \"Alice <alice@example.org>\"", false) ∧
    (doOpenMessageCmdGPGVerify gpgBadSignature signedMessage false 0).map (fun r => r.1)
      ≠ some ("Signature found, but BAD", false) := by
  rw [doOpenMessageCmdGPGVerify]
  decide

theorem stripLeading_eq_some (p l r : List Char) (h : stripLeading p l = some r) :
    l = p ++ r := by
  induction p generalizing l with
  | nil => simp only [stripLeading, Option.some.injEq] at h; simp [h]
  | cons x xs ih =>
    cases l with
    | nil => simp [stripLeading] at h
    | cons c cs =>
      by_cases hx : x = c
      · simp only [stripLeading, hx, if_true] at h
        rw [hx, ih cs h]; rfl
      · simp [stripLeading, hx] at h

theorem gpgErrorRE.matchLine_eq_some (a g : List Char) (h : gpgErrorRE.matchLine a = some g) :
    a = "gpg: ".data ++ g := by
  unfold gpgErrorRE.matchLine at h
  cases hs : stripLeading "gpg: ".data a with
  | none => rw [hs] at h; cases h
  | some r =>
    rw [hs] at h
    simp only at h
    split at h
    · cases h; exact stripLeading_eq_some _ _ _ hs
    · cases h

/-- The retry condition in terms of lines: the first line that begins
"gpg: Can't check signature" or "gpg: BAD " is exactly the key-not-found
line. -/
theorem extractError_eq_iff (stderr : String) :
    extractError stderr = "Can't check signature: public key not found" ↔
      ∃ pre post, splitLines stderr.data
          = pre ++ "gpg: Can't check signature: public key not found".data :: post ∧
        ∀ l ∈ pre, gpgErrorRE.matchLine l = none := by
  constructor
  · intro h
    unfold extractError gpgErrorRE.FindStringSubmatch at h
    cases hf : (splitLines stderr.data).findSome?
        (fun line => (gpgErrorRE.matchLine line).map
          (fun g => [String.mk line, String.mk g])) with
    | none =>
      rw [hf] at h
      exact absurd h (by decide)
    | some m =>
      rw [hf] at h
      obtain ⟨pre, a, post, hsplit, ha, hpre⟩ := List.findSome?_eq_some_iff.1 hf
      cases hg : gpgErrorRE.matchLine a with
      | none => rw [hg] at ha; cases ha
      | some g =>
        rw [hg] at ha
        simp only [Option.map_some', Option.some.injEq] at ha
        subst ha
        simp only [List.length_cons, List.length_nil, List.getD_cons_succ, List.getD_cons_zero,
          if_true] at h
        have hgd : g = "Can't check signature: public key not found".data :=
          congrArg String.data h
        refine ⟨pre, post, ?_, ?_⟩
        · rw [hsplit, gpgErrorRE.matchLine_eq_some a g hg, hgd]
          rfl
        · intro l hl
          have := hpre l hl
          cases hm : gpgErrorRE.matchLine l with
          | none => rfl
          | some x => rw [hm] at this; cases this
  · rintro ⟨pre, post, hsplit, hpre⟩
    have hf : (splitLines stderr.data).findSome?
        (fun line => (gpgErrorRE.matchLine line).map
          (fun g => [String.mk line, String.mk g]))
        = some ["gpg: Can't check signature: public key not found",
            "Can't check signature: public key not found"] := by
      apply List.findSome?_eq_some_iff.2
      refine ⟨pre, _, post, hsplit, by decide, ?_⟩
      intro l hl
      rw [hpre l hl]; rfl
    unfold extractError gpgErrorRE.FindStringSubmatch
    rw [hf]
    decide

/-- With downloading disabled nothing is downloaded and the verifier runs
once, or not at all when it cannot be started. -/
theorem verify_without_download (gpg : String → Nat → GpgRun) (msg : GmailMessage)
    (body : String) (n : Nat) (hb : getBody msg = some body) :
    ∃ r ev, doOpenMessageCmdGPGVerify gpg msg false n = some (r, ev) ∧
      (ev = [] ∨ ev = [.verify body]) ∧
      ((∀ err, gpg body n ≠ .startFailed err) → ev = [.verify body]) := by
  rw [doOpenMessageCmdGPGVerify]
  simp only [hb]
  cases hrun : gpg body n with
  | startFailed err => exact ⟨_, [], rfl, Or.inl rfl, fun h => absurd rfl (h err)⟩
  | waitFailed err => exact ⟨_, _, rfl, Or.inr rfl, fun _ => rfl⟩
  | exited stderr ws =>
    simp only [Bool.false_eq_true, and_false, dite_false]
    split
    · split
      · exact ⟨_, _, rfl, Or.inr rfl, fun _ => rfl⟩
      · exact ⟨_, _, rfl, Or.inr rfl, fun _ => rfl⟩
    · split
      · exact ⟨_, _, rfl, Or.inr rfl, fun _ => rfl⟩
      · exact ⟨_, _, rfl, Or.inr rfl, fun _ => rfl⟩

/-- When the first run reports the missing key, the key is downloaded and
the result is that of the call with downloading disabled on the next run. -/
theorem verify_retry (gpg : String → Nat → GpgRun) (msg : GmailMessage)
    (body stderr : String) (ws n : Nat) (hb : getBody msg = some body)
    (hrun : gpg body n = .exited stderr ws)
    (herr : extractError stderr = "Can't check signature: public key not found") :
    doOpenMessageCmdGPGVerify gpg msg true n
      = (doOpenMessageCmdGPGVerify gpg msg false (n + 1)).map
          (fun r => (r.1, [.verify body, .download (extractKeyID stderr)] ++ r.2)) := by
  rw [doOpenMessageCmdGPGVerify]
  simp only [hb, hrun, herr, and_self, dite_true]
  cases doOpenMessageCmdGPGVerify gpg msg false (n + 1) <;> rfl

/-- When the first run does not report the missing key, downloading
enabled or not makes no difference. -/
theorem verify_no_retry (gpg : String → Nat → GpgRun) (msg : GmailMessage)
    (body : String) (n : Nat) (hb : getBody msg = some body)
    (hno : ∀ stderr ws, gpg body n = .exited stderr ws →
      extractError stderr ≠ "Can't check signature: public key not found") :
    doOpenMessageCmdGPGVerify gpg msg true n = doOpenMessageCmdGPGVerify gpg msg false n := by
  conv_lhs => rw [doOpenMessageCmdGPGVerify]
  conv_rhs => rw [doOpenMessageCmdGPGVerify]
  simp only [hb]
  cases hrun : gpg body n with
  | startFailed err => rfl
  | waitFailed err => rfl
  | exited stderr ws =>
    have := hno stderr ws hrun
    simp only [this, false_and, dite_false, Bool.false_eq_true, and_false]

/-- C8, the claim fails: the diagnostics of the first run contain the line
"gpg: Can't check signature: public key not found", after a line
"gpg: BAD signature ..."; with downloading enabled the verifier runs once,
nothing is downloaded and there is no retry. And when the verifier command
cannot be started, a call with downloading disabled runs no verifier. -/
theorem retry_counterexample :
    ((∃ stderr ws, gpgTwoSignatures "hello" 0 = .exited stderr ws ∧
        "gpg: Can't check signature: public key not found".data ∈ splitLines stderr.data) ∧
      doOpenMessageCmdGPGVerify gpgTwoSignatures signedMessage true 0
        = some (("Unable to verify anything. Key ID: AAAA1111. Error: BAD signature from \"Alice <alice@example.org>\"", false),
            [.verify "hello"])) ∧
    doOpenMessageCmdGPGVerify gpgMissing signedMessage false 0
      = some (("Verify failed to execute: exec: \"gpg\": executable file not found in $PATH",
          false), []) := by
  refine ⟨⟨⟨_, _, rfl, by decide⟩, ?_⟩, ?_⟩
  · rw [doOpenMessageCmdGPGVerify]
    decide
  · rw [doOpenMessageCmdGPGVerify]
    decide

/-- What the key ID pattern accepts on a line: the fixed text, a non-empty
group, " using ", a word, " key ID " and the word the line ends with. -/
theorem gpgKeyIDRE.matchLine_sound (line x w2 : List Char)
    (h : gpgKeyIDRE.matchLine line = some (x, w2)) :
    ∃ w1, line = "gpg: Signature made ".data ++ x ++ " using ".data ++ w1 ++
        " key ID ".data ++ w2 ∧
      x ≠ [] ∧ w1 ≠ [] ∧ w2 ≠ [] ∧ w1.all isWordChar = true ∧ w2.all isWordChar = true := by
  unfold gpgKeyIDRE.matchLine at h
  cases h1 : stripLeading "gpg: Signature made ".data line with
  | none => rw [h1] at h; cases h
  | some r =>
    rw [h1] at h
    simp only at h
    cases h2 : stripLeading " key ID ".data.reverse (r.reverse.dropWhile isWordChar) with
    | none => rw [h2] at h; cases h
    | some r2 =>
      rw [h2] at h
      simp only at h
      cases h3 : stripLeading " using ".data.reverse (r2.dropWhile isWordChar) with
      | none => rw [h3] at h; cases h
      | some y =>
        rw [h3] at h
        simp only at h
        split at h
        · rename_i hne
          simp only [Option.some.injEq, Prod.mk.injEq] at h
          obtain ⟨hx, hw⟩ := h
          have e1 := stripLeading_eq_some _ _ _ h1
          have e2 := stripLeading_eq_some _ _ _ h2
          have e3 := stripLeading_eq_some _ _ _ h3
          have er : r.reverse = r.reverse.takeWhile isWordChar ++
              (" key ID ".data.reverse ++ (r2.takeWhile isWordChar ++
                (" using ".data.reverse ++ y))) := by
            conv_lhs => rw [← List.takeWhile_append_dropWhile isWordChar r.reverse, e2]
            conv_lhs => rw [← List.takeWhile_append_dropWhile isWordChar r2, e3]
          have er' : r = y.reverse ++ " using ".data ++ (r2.takeWhile isWordChar).reverse ++
              " key ID ".data ++ (r.reverse.takeWhile isWordChar).reverse := by
            have := congrArg List.reverse er
            simpa [List.reverse_append, List.append_assoc] using this
          refine ⟨(r2.takeWhile isWordChar).reverse, ?_, ?_, ?_, ?_, ?_, ?_⟩
          · rw [e1, er', ← hx, ← hw]
            simp [List.append_assoc]
          · rw [← hx]; simpa using hne.2.2
          · simpa using hne.2.1
          · rw [← hw]; simpa using hne.1
          · rw [List.all_reverse, List.all_eq_true]
            intro c hc
            exact (List.mem_takeWhile_imp hc)
          · rw [← hw, List.all_reverse, List.all_eq_true]
            intro c hc
            exact (List.mem_takeWhile_imp hc)
        · cases h

/-- The key ID handed to the download: the last group of the first line the
key ID pattern matches, "Unknown" when no line matches. -/
theorem extractKeyID_spec (stderr : String) :
    (∀ pre line post x w2, splitLines stderr.data = pre ++ line :: post →
      (∀ l ∈ pre, gpgKeyIDRE.matchLine l = none) →
      gpgKeyIDRE.matchLine line = some (x, w2) → extractKeyID stderr = String.mk w2) ∧
    ((∀ l ∈ splitLines stderr.data, gpgKeyIDRE.matchLine l = none) →
      extractKeyID stderr = "Unknown") := by
  constructor
  · intro pre line post x w2 hsplit hpre hline
    have hf : (splitLines stderr.data).findSome?
        (fun line => (gpgKeyIDRE.matchLine line).map
          (fun g => [String.mk line, String.mk g.1, String.mk g.2]))
        = some [String.mk line, String.mk x, String.mk w2] := by
      apply List.findSome?_eq_some_iff.2
      refine ⟨pre, line, post, hsplit, by rw [hline]; rfl, ?_⟩
      intro l hl
      rw [hpre l hl]; rfl
    unfold extractKeyID gpgKeyIDRE.FindStringSubmatch
    rw [hf]
    rfl
  · intro hall
    have hf : (splitLines stderr.data).findSome?
        (fun line => (gpgKeyIDRE.matchLine line).map
          (fun g => [String.mk line, String.mk g.1, String.mk g.2])) = none := by
      apply List.findSome?_eq_none_iff.2
      intro l hl
      rw [hall l hl]; rfl
    unfold extractKeyID gpgKeyIDRE.FindStringSubmatch
    rw [hf]
    rfl

/-- C8 as amended: for a message whose body `getBody` returns, a call with
downloading enabled runs the verifier at most twice and the key download at
most once. The download and the single retry happen exactly when the first
run ends with diagnostics in which the first line beginning
"gpg: Can't check signature" or "gpg: BAD " is the line
"gpg: Can't check signature: public key not found"; the download is given
the key ID extracted from the first "gpg: Signature made ... key ID <id>"
line; the retry runs with downloading disabled and its result is returned
as final. A call with downloading disabled never downloads and runs the
verifier at most once, exactly once when the verifier starts. Every call
returns. -/
theorem verify_retry_policy_amended (gpg : String → Nat → GpgRun) (msg : GmailMessage)
    (body : String) (n : Nat) (hb : getBody msg = some body) :
    (∃ r ev, doOpenMessageCmdGPGVerify gpg msg false n = some (r, ev) ∧
      verifierRuns ev ≤ 1 ∧ keyDownloads ev = 0 ∧
      ((∀ err, gpg body n ≠ .startFailed err) → ev = [.verify body])) ∧
    (∃ r ev, doOpenMessageCmdGPGVerify gpg msg true n = some (r, ev) ∧
      verifierRuns ev ≤ 2 ∧ keyDownloads ev ≤ 1 ∧
      (0 < keyDownloads ev ↔ ∃ stderr ws, gpg body n = .exited stderr ws ∧
        extractError stderr = "Can't check signature: public key not found")) ∧
    (∀ stderr ws, gpg body n = .exited stderr ws →
      extractError stderr = "Can't check signature: public key not found" →
      ∃ r ev, doOpenMessageCmdGPGVerify gpg msg false (n + 1) = some (r, ev) ∧
        verifierRuns ev ≤ 1 ∧ keyDownloads ev = 0 ∧
        ((∀ err, gpg body (n + 1) ≠ .startFailed err) → ev = [.verify body]) ∧
        doOpenMessageCmdGPGVerify gpg msg true n
          = some (r, [.verify body, .download (extractKeyID stderr)] ++ ev)) ∧
    ((∀ stderr ws, gpg body n = .exited stderr ws →
        extractError stderr ≠ "Can't check signature: public key not found") →
      doOpenMessageCmdGPGVerify gpg msg true n = doOpenMessageCmdGPGVerify gpg msg false n) ∧
    (∀ stderr, extractError stderr = "Can't check signature: public key not found" ↔
      ∃ pre post, splitLines stderr.data
          = pre ++ "gpg: Can't check signature: public key not found".data :: post ∧
        ∀ l ∈ pre, gpgErrorRE.matchLine l = none) ∧
    (∀ stderr pre line post x w2, splitLines stderr.data = pre ++ line :: post →
      (∀ l ∈ pre, gpgKeyIDRE.matchLine l = none) →
      gpgKeyIDRE.matchLine line = some (x, w2) → extractKeyID stderr = String.mk w2) := by
  have hfalse : ∀ k, ∃ r ev, doOpenMessageCmdGPGVerify gpg msg false k = some (r, ev) ∧
      verifierRuns ev ≤ 1 ∧ keyDownloads ev = 0 ∧
      ((∀ err, gpg body k ≠ .startFailed err) → ev = [.verify body]) := by
    intro k
    obtain ⟨r, ev, h1, h2, h3⟩ := verify_without_download gpg msg body k hb
    refine ⟨r, ev, h1, ?_, ?_, h3⟩
    · rcases h2 with h | h <;> rw [h] <;> simp [verifierRuns]
    · rcases h2 with h | h <;> rw [h] <;> simp [keyDownloads]
  have hretry : ∀ stderr ws, gpg body n = .exited stderr ws →
      extractError stderr = "Can't check signature: public key not found" →
      ∃ r ev, doOpenMessageCmdGPGVerify gpg msg false (n + 1) = some (r, ev) ∧
        verifierRuns ev ≤ 1 ∧ keyDownloads ev = 0 ∧
        ((∀ err, gpg body (n + 1) ≠ .startFailed err) → ev = [.verify body]) ∧
        doOpenMessageCmdGPGVerify gpg msg true n
          = some (r, [.verify body, .download (extractKeyID stderr)] ++ ev) := by
    intro stderr ws hrun herr
    obtain ⟨r, ev, h1, h2, h3, h4⟩ := hfalse (n + 1)
    refine ⟨r, ev, h1, h2, h3, h4, ?_⟩
    rw [verify_retry gpg msg body stderr ws n hb hrun herr, h1]
    rfl
  refine ⟨hfalse n, ?_, hretry, verify_no_retry gpg msg body n hb, extractError_eq_iff,
    fun stderr => (extractKeyID_spec stderr).1⟩
  by_cases htrig : ∃ stderr ws, gpg body n = .exited stderr ws ∧
      extractError stderr = "Can't check signature: public key not found"
  · obtain ⟨stderr, ws, hrun, herr⟩ := htrig
    obtain ⟨r, ev, _, h2, h3, _, h5⟩ := hretry stderr ws hrun herr
    refine ⟨r, _, h5, ?_, ?_, ?_⟩
    · have : verifierRuns ([.verify body, .download (extractKeyID stderr)] ++ ev)
          = 1 + verifierRuns ev := by
        simp [verifierRuns]; omega
      omega
    · have : keyDownloads ([.verify body, .download (extractKeyID stderr)] ++ ev)
          = 1 + keyDownloads ev := by
        simp [keyDownloads]; omega
      omega
    · have : keyDownloads ([.verify body, .download (extractKeyID stderr)] ++ ev)
          = 1 + keyDownloads ev := by
        simp [keyDownloads]; omega
      exact ⟨fun _ => ⟨stderr, ws, hrun, herr⟩, fun _ => by omega⟩
  · have hno : ∀ stderr ws, gpg body n = .exited stderr ws →
        extractError stderr ≠ "Can't check signature: public key not found" :=
      fun stderr ws hrun herr => htrig ⟨stderr, ws, hrun, herr⟩
    obtain ⟨r, ev, h1, h2, h3, _⟩ := hfalse n
    refine ⟨r, ev, ?_, by omega, by omega, ?_⟩
    · rw [verify_no_retry gpg msg body n hb hno]; exact h1
    · exact ⟨fun h => by omega, fun h => absurd h htrig⟩

theorem verify_retry_policy_amended_witness :
    getBody signedMessage = some "hello" ∧
      doOpenMessageCmdGPGVerify gpgAfterDownload signedMessage true 0
        = some (("Verify succeeded", true),
            [.verify "hello", .download "ABCD1234", .verify "hello"]) := by
  refine ⟨by decide, ?_⟩
  obtain ⟨r, ev, h1, _, _, _, h2⟩ := (verify_retry_policy_amended gpgAfterDownload
    signedMessage "hello" 0 (by decide)).2.2.1 _ _ rfl (by decide)
  have h3 : doOpenMessageCmdGPGVerify gpgAfterDownload signedMessage false (0 + 1)
      = some (("Verify succeeded", true), [.verify "hello"]) := by
    rw [doOpenMessageCmdGPGVerify]
    decide
  rw [h3] at h1
  simp only [Option.some.injEq, Prod.mk.injEq] at h1
  rw [h2, ← h1.1, ← h1.2]
  decide

theorem stripLeading_append (p rest : List Char) : stripLeading p (p ++ rest) = some rest := by
  induction p with
  | nil => cases rest <;> rfl
  | cons x xs ih => simp [stripLeading, ih]

/-- C9, the claim fails: the run exits with status zero, its diagnostics
have the "Signature made ... key ID ABCD1234" line and gpg's warning for a key
of marginal trust, the line "gpg: WARNING: This key is not certified with
sufficiently trusted signatures!", which contains "WARNING: This key is not
certified"; the result is ("Verify succeeded", true), not the untrusted-key
result. -/
theorem untrusted_warning_counterexample :
    (∃ stderr ws, gpgMarginal "hello" 0 = .exited stderr ws ∧
      WaitStatus.ExitStatus ws = 0 ∧
      extractError stderr ≠ "Can't check signature: public key not found" ∧
      "gpg: Signature made Tue Mar  3 10:00:00 2015 CET using RSA key ID ABCD1234".data
        ∈ splitLines stderr.data ∧
      "gpg: WARNING: This key is not certified with sufficiently trusted signatures!".data
        ∈ splitLines stderr.data) ∧
    "gpg: WARNING: This key is not certified with sufficiently trusted signatures!"
      = "gpg: " ++ "WARNING: This key is not certified" ++
        " with sufficiently trusted signatures!" ∧
    doOpenMessageCmdGPGVerify gpgMarginal signedMessage true 0
      = some (("Verify succeeded", true), [.verify "hello"]) ∧
    doOpenMessageCmdGPGVerify gpgMarginal signedMessage true 0
      ≠ some (("Verify succeeded, but with untrusted key", true), [.verify "hello"]) := by
  refine ⟨⟨_, _, rfl, by decide, by decide, by decide, by decide⟩, by decide, ?_, ?_⟩
  · rw [doOpenMessageCmdGPGVerify]
    decide
  · rw [doOpenMessageCmdGPGVerify]
    decide

/-- C9 as amended: when a run of the verifier exits with status zero and
the retry is not taken, `doOpenMessageCmdGPGVerify` returns
("Verify succeeded", true) if no line of the diagnostics begins with
"gpg: WARNING: This key is not certified with a trusted signature", and
("Verify succeeded, but with untrusted key", true) if a line begins with it;
this holds in particular for diagnostics with a
"gpg: Signature made ... key ID ABCD1234" line. -/
theorem verify_success_classification (gpg : String → Nat → GpgRun) (msg : GmailMessage)
    (body stderr : String) (ws n : Nat) (doDownload : Bool)
    (hb : getBody msg = some body) (hrun : gpg body n = .exited stderr ws)
    (hzero : WaitStatus.ExitStatus ws = 0)
    (hnoretry : ¬ (extractError stderr = "Can't check signature: public key not found" ∧
      doDownload = true)) :
    ((∀ l ∈ splitLines stderr.data, ∀ rest,
        l ≠ "gpg: WARNING: This key is not certified with a trusted signature".data ++ rest) →
      doOpenMessageCmdGPGVerify gpg msg doDownload n
        = some (("Verify succeeded", true), [.verify body])) ∧
    ((∃ l ∈ splitLines stderr.data, ∃ rest,
        l = "gpg: WARNING: This key is not certified with a trusted signature".data ++ rest) →
      doOpenMessageCmdGPGVerify gpg msg doDownload n
        = some (("Verify succeeded, but with untrusted key", true), [.verify body])) := by
  have hsucc : ProcessState.Success ws = true := by
    simp [ProcessState.Success, hzero]
  have hunfold : doOpenMessageCmdGPGVerify gpg msg doDownload n
      = if gpgUntrustedRE.MatchString stderr = true then
          some (("Verify succeeded, but with untrusted key", true), [.verify body])
        else some (("Verify succeeded", true), [.verify body]) := by
    rw [doOpenMessageCmdGPGVerify]
    simp only [hb, hrun, hnoretry, dite_false, hsucc, if_true]
  rw [hunfold]
  constructor
  · intro hno
    have hm : gpgUntrustedRE.MatchString stderr = false := by
      unfold gpgUntrustedRE.MatchString
      rw [List.any_eq_false]
      intro l hl hsome
      cases hs : stripLeading
          "gpg: WARNING: This key is not certified with a trusted signature".data l with
      | none => rw [hs] at hsome; cases hsome
      | some rest => exact hno l hl rest (stripLeading_eq_some _ _ _ hs)
    rw [hm]; rfl
  · rintro ⟨l, hl, rest, hrest⟩
    have hm : gpgUntrustedRE.MatchString stderr = true := by
      unfold gpgUntrustedRE.MatchString
      rw [List.any_eq_true]
      refine ⟨l, hl, ?_⟩
      rw [hrest, stripLeading_append]; rfl
    rw [hm]; rfl

theorem verify_success_classification_witness :
    getBody signedMessage = some "hello" ∧
      WaitStatus.ExitStatus (WaitStatus.ofExitCode 0) = 0 ∧
      doOpenMessageCmdGPGVerify gpgUntrusted signedMessage true 0
        = some (("Verify succeeded, but with untrusted key", true), [.verify "hello"]) ∧
      doOpenMessageCmdGPGVerify gpgGood signedMessage true 0
        = some (("Verify succeeded", true), [.verify "hello"]) := by
  refine ⟨by decide, by decide, ?_, ?_⟩
  · exact (verify_success_classification gpgUntrusted signedMessage "hello" _ _ 0 true
      (by decide) rfl (by decide) (by decide)).2
      ⟨"gpg: WARNING: This key is not certified with a trusted signature!".data, by decide,
        "!".data, by decide⟩
  · refine (verify_success_classification gpgGood signedMessage "hello" _ _ 0 true
      (by decide) rfl (by decide) (by decide)).1 ?_
    intro l hl rest h
    have hsome : (stripLeading
        "gpg: WARNING: This key is not certified with a trusted signature".data l).isSome
        = true := by
      rw [h, stripLeading_append]; rfl
    have hnone : ∀ l ∈ splitLines
        "gpg: Signature made Tue Mar  3 10:00:00 2015 CET using RSA key ID ABCD1234\ngpg: Good signature from \"Alice <alice@example.org>\"\n".data,
        (stripLeading
          "gpg: WARNING: This key is not certified with a trusted signature".data l).isSome
          ≠ true := by
      decide
    exact hnone l hl hsome

/-! ## Batch apply -/

theorem GoMap.get?_delete_self {α : Type} (m : GoMap α) (k : String) :
    GoMap.get? (GoMap.delete m k) k = none := by
  induction m with
  | nil => rfl
  | cons e t ih =>
    obtain ⟨k', v'⟩ := e
    by_cases h : k' = k
    · simp [GoMap.delete, h, ih]
    · simp [GoMap.delete, GoMap.get?, h, ih]

theorem GoMap.get?_delete_ne {α : Type} (m : GoMap α) (k j : String) (h : j ≠ k) :
    GoMap.get? (GoMap.delete m k) j = GoMap.get? m j := by
  induction m with
  | nil => rfl
  | cons e t ih =>
    obtain ⟨k', v'⟩ := e
    by_cases hk : k' = k
    · have hkj : ¬ k = j := fun e => h e.symm
      simp [GoMap.delete, GoMap.get?, hk, ih, hkj]
    · by_cases hj : k' = j
      · subst hj
        simp [GoMap.delete, GoMap.get?, hk]
      · simp [GoMap.delete, GoMap.get?, hk, hj, ih]

theorem messagesCmdApply.units_fold (quote : String → String) (verb : String)
    (f : String → Option String) (marked : GoMap Bool) (ms : List GmailMessage)
    (p : parallel ApplyState) :
    (ms.foldl (fun p m =>
        if !(marked.get? m.Id).getD false then p
        else p.add (messagesCmdApply.unit quote verb f m.Id)) p).chans
      = p.chans ++ ((ms.map (fun m => m.Id)).filter
          (fun id => (marked.get? id).getD false)).map (messagesCmdApply.unit quote verb f) := by
  induction ms generalizing p with
  | nil => simp
  | cons m rest ih =>
    simp only [List.foldl_cons, List.map_cons]
    rw [ih]
    by_cases hm : (marked.get? m.Id).getD false = true
    · simp [hm, parallel.add, List.filter_cons]
    · simp [hm, List.filter_cons]

theorem messagesCmdApply.units_chans (quote : String → String) (verb : String)
    (f : String → Option String) (l : messageList) :
    (messagesCmdApply.units quote verb f l).chans
      = (markedIds l).map (messagesCmdApply.unit quote verb f) := by
  unfold messagesCmdApply.units markedIds
  rw [messagesCmdApply.units_fold]
  simp

theorem messagesCmdApply.afterRun_eq (quote : String → String) (verb : String)
    (f : String → Option String) (l : messageList) :
    messagesCmdApply.afterRun quote verb f l
      = (markedIds l).foldl (fun s id => messagesCmdApply.unit quote verb f id s)
          { marked := l.marked } := by
  unfold messagesCmdApply.afterRun parallel.run
  rw [messagesCmdApply.units_chans, List.foldl_map]

/-- The effect of calling the closures of the units of `ids` in order. -/
theorem messagesCmdApply.fold_spec (quote : String → String) (verb : String)
    (f : String → Option String) (ids : List String) (s0 : ApplyState) :
    ((ids.foldl (fun s id => messagesCmdApply.unit quote verb f id s) s0).ok
        = s0.ok + (ids.filter (fun id => (f id).isNone)).length) ∧
    ((ids.foldl (fun s id => messagesCmdApply.unit quote verb f id s) s0).fail
        = s0.fail + (ids.filter (fun id => (f id).isSome)).length) ∧
    (∀ k, (ids.foldl (fun s id => messagesCmdApply.unit quote verb f id s) s0).marked.get? k
        = if k ∈ ids ∧ f k = none then none else s0.marked.get? k) ∧
    ((ids.foldl (fun s id => messagesCmdApply.unit quote verb f id s) s0).errstr
        = match (ids.filter (fun id => (f id).isSome)).getLast? with
          | some id => "Error " ++ verb ++ " " ++ quote id ++ ": " ++ (f id).getD ""
          | none => s0.errstr) := by
  induction ids using List.reverseRecOn with
  | nil => simp
  | append_singleton init x ih =>
    obtain ⟨ih1, ih2, ih3, ih4⟩ := ih
    simp only [List.foldl_append, List.foldl_cons, List.foldl_nil, List.filter_append]
    cases hx : f x with
    | none =>
      have hunit : ∀ s, messagesCmdApply.unit quote verb f x s
          = { s with marked := s.marked.delete x, ok := s.ok + 1 } := by
        intro s; simp [messagesCmdApply.unit, hx]
      rw [hunit]
      refine ⟨?_, ?_, ?_, ?_⟩
      · simp [ih1, List.filter_cons, hx]; omega
      · simp [ih2, List.filter_cons, hx]
      · intro k
        by_cases hk : k = x
        · subst hk
          simp [GoMap.get?_delete_self, hx]
        · simp only [GoMap.get?_delete_ne _ _ _ hk, ih3 k, List.mem_append, List.mem_singleton,
            hk, or_false]
      · simp [ih4, List.filter_cons, hx]
    | some err =>
      have hunit : ∀ s, messagesCmdApply.unit quote verb f x s
          = { s with errstr := "Error " ++ verb ++ " " ++ quote x ++ ": " ++ err,
                     fail := s.fail + 1 } := by
        intro s; simp [messagesCmdApply.unit, hx]
      rw [hunit]
      refine ⟨?_, ?_, ?_, ?_⟩
      · simp [ih1, List.filter_cons, hx]
      · simp [ih2, List.filter_cons, hx]; omega
      · intro k
        by_cases hk : k = x
        · subst hk
          simp [ih3 k, hx]
        · simp only [ih3 k, List.mem_append, List.mem_singleton, hk, or_false]
      · simp [List.filter_cons, hx]

theorem length_filter_isNone_add_isSome (f : String → Option String) (ids : List String) :
    (ids.filter (fun id => (f id).isNone)).length + (ids.filter (fun id => (f id).isSome)).length
      = ids.length := by
  induction ids with
  | nil => rfl
  | cons a rest ih =>
    cases ha : f a with
    | none => simp [List.filter_cons, ha]; omega
    | some e => simp [List.filter_cons, ha]; omega

theorem mem_markedIds (l : messageList) (m : GmailMessage) (hm : m ∈ l.messages)
    (hmark : (l.marked.get? m.Id).getD false = true) : m.Id ∈ markedIds l := by
  unfold markedIds
  rw [List.mem_filter]
  exact ⟨List.mem_map.2 ⟨m, hm, rfl⟩, hmark⟩

/-- C10: `messagesCmdApply` adds one unit, calling `f` once, for each listed
message that is marked, and no failure stops the batch: after `p.run()`,
`ok + fail` is the number of those messages, `fail` the number of them for
which `f` returned an error, every listed marked message whose `f` succeeded
is no longer marked, every one whose `f` failed is still marked, and when
`fail > 0` the error text, which the bottom view shows, holds the quoted ID
of the last failing message in submission order. With five such messages of
which one fails: `ok = 4`, `fail = 1`, that message alone among the listed
ones stays marked and its quoted ID is in the error text. -/
theorem batch_apply_never_aborts (quote : String → String) (verb : String)
    (f : String → Option String) (l : messageList) :
    ((messagesCmdApply.units quote verb f l).chans.length = (markedIds l).length) ∧
    ((messagesCmdApply.afterRun quote verb f l).ok + (messagesCmdApply.afterRun quote verb f l).fail
      = (markedIds l).length) ∧
    ((messagesCmdApply.afterRun quote verb f l).fail
      = ((markedIds l).filter (fun id => (f id).isSome)).length) ∧
    (∀ m ∈ l.messages, (l.marked.get? m.Id).getD false = true → f m.Id = none →
      ((messagesCmdApply.afterRun quote verb f l).marked.get? m.Id).getD false = false) ∧
    (∀ m ∈ l.messages, (l.marked.get? m.Id).getD false = true → (f m.Id).isSome = true →
      ((messagesCmdApply.afterRun quote verb f l).marked.get? m.Id).getD false = true) ∧
    ((messagesCmdApply.afterRun quote verb f l).fail > 0 →
      ∃ id err, ((markedIds l).filter (fun id => (f id).isSome)).getLast? = some id ∧
        f id = some err ∧
        (messagesCmdApply.afterRun quote verb f l).errstr
          = "Error " ++ verb ++ " " ++ quote id ++ ": " ++ err ∧
        messagesCmdApply quote verb f l
          = ((messagesCmdApply.afterRun quote verb f l).marked,
              toString (messagesCmdApply.afterRun quote verb f l).ok ++ " " ++ verb ++
                " OK, " ++ toString (messagesCmdApply.afterRun quote verb f l).fail ++
                " failed: " ++ "Error " ++ verb ++ " " ++ quote id ++ ": " ++ err)) ∧
    ((markedIds l).length = 5 →
      ∀ x, (markedIds l).filter (fun id => (f id).isSome) = [x] →
        (messagesCmdApply.afterRun quote verb f l).ok = 4 ∧
        (messagesCmdApply.afterRun quote verb f l).fail = 1 ∧
        (∀ m ∈ l.messages,
          (((messagesCmdApply.afterRun quote verb f l).marked.get? m.Id).getD false = true ↔
            m.Id = x)) ∧
        (messagesCmdApply.afterRun quote verb f l).errstr
          = "Error " ++ verb ++ " " ++ quote x ++ ": " ++ (f x).getD "") := by
  obtain ⟨h1, h2, h3, h4⟩ := messagesCmdApply.fold_spec quote verb f (markedIds l)
    { marked := l.marked }
  rw [← messagesCmdApply.afterRun_eq] at h1 h2 h3 h4
  have hsum := length_filter_isNone_add_isSome f (markedIds l)
  simp only [Nat.zero_add] at h1 h2
  refine ⟨?_, ?_, h2, ?_, ?_, ?_, ?_⟩
  · rw [messagesCmdApply.units_chans, List.length_map]
  · rw [h1, h2]; exact hsum
  · intro m hm hmark hf
    rw [h3, if_pos ⟨mem_markedIds l m hm hmark, hf⟩]
    rfl
  · intro m hm hmark hf
    have hne : ¬ (m.Id ∈ markedIds l ∧ f m.Id = none) := by
      rintro ⟨_, hnone⟩
      rw [hnone] at hf
      cases hf
    rw [h3, if_neg hne]
    exact hmark
  · intro hfail
    cases hlast : ((markedIds l).filter (fun id => (f id).isSome)).getLast? with
    | none =>
      rw [List.getLast?_eq_none_iff] at hlast
      rw [h2, hlast] at hfail
      simp at hfail
    | some id =>
      have hmem : id ∈ (markedIds l).filter (fun id => (f id).isSome) :=
        List.mem_of_getLast?_eq_some hlast
      have hsome : (f id).isSome = true := (List.mem_filter.1 hmem).2
      obtain ⟨err, herr⟩ := Option.isSome_iff_exists.1 hsome
      rw [hlast] at h4
      simp only [herr, Option.getD_some] at h4
      refine ⟨id, err, rfl, herr, h4, ?_⟩
      unfold messagesCmdApply
      simp only [hfail, if_true, h4]
      simp only [String.append_assoc]
  · intro hlen x hx
    have hfail : (messagesCmdApply.afterRun quote verb f l).fail = 1 := by
      rw [h2, hx]; rfl
    have hok : (messagesCmdApply.afterRun quote verb f l).ok = 4 := by
      rw [h1]
      rw [hx, hlen] at hsum
      simp only [List.length_singleton] at hsum
      omega
    have hxmem : x ∈ (markedIds l).filter (fun id => (f id).isSome) := by
      rw [hx]; exact List.mem_singleton_self x
    have hxids : x ∈ markedIds l := (List.mem_filter.1 hxmem).1
    have hxsome : (f x).isSome = true := (List.mem_filter.1 hxmem).2
    have hxmark : (l.marked.get? x).getD false = true := by
      unfold markedIds at hxids
      exact (List.mem_filter.1 hxids).2
    refine ⟨hok, hfail, ?_, ?_⟩
    · intro m hm
      constructor
      · intro hstill
        rw [h3] at hstill
        by_cases hc : m.Id ∈ markedIds l ∧ f m.Id = none
        · rw [if_pos hc] at hstill
          cases hstill
        · rw [if_neg hc] at hstill
          have hin := mem_markedIds l m hm hstill
          have hsome : (f m.Id).isSome = true := by
            cases hfm : f m.Id with
            | none => exact absurd ⟨hin, hfm⟩ hc
            | some e => rfl
          have : m.Id ∈ (markedIds l).filter (fun id => (f id).isSome) :=
            List.mem_filter.2 ⟨hin, hsome⟩
          rw [hx] at this
          exact List.mem_singleton.1 this
      · intro hmx
        rw [hmx, h3]
        have hne : ¬ (x ∈ markedIds l ∧ f x = none) := by
          rintro ⟨_, hnone⟩
          rw [hnone] at hxsome
          cases hxsome
        rw [if_neg hne]
        exact hxmark
    · rw [h4, hx]
      rfl

theorem batch_apply_never_aborts_witness :
    (markedIds fiveMarked).length = 5 ∧
      (markedIds fiveMarked).filter (fun id => (failsOnA3 id).isSome) = ["a3"] ∧
      (messagesCmdApply.afterRun quotePlain "archiving" failsOnA3 fiveMarked).ok = 4 ∧
      (messagesCmdApply.afterRun quotePlain "archiving" failsOnA3 fiveMarked).fail = 1 ∧
      (∀ m ∈ fiveMarked.messages,
        (((messagesCmdApply.afterRun quotePlain "archiving" failsOnA3 fiveMarked).marked.get?
          m.Id).getD false = true ↔ m.Id = "a3")) ∧
      (messagesCmdApply.afterRun quotePlain "archiving" failsOnA3 fiveMarked).errstr
        = "Error " ++ "archiving" ++ " " ++ quotePlain "a3" ++ ": " ++ (failsOnA3 "a3").getD "" :=
  ⟨by decide, by decide,
    (batch_apply_never_aborts quotePlain "archiving" failsOnA3 fiveMarked).2.2.2.2.2.2
      (by decide) "a3" (by decide)⟩

/-! ## Cursor of the message list -/

theorem list_messages (get : String → GmailMessage) (res : List GmailMessage) :
    (list get res).messages = res.map (fun m => get m.Id) := by
  unfold list
  rw [list_fold_run]
  simp [parallel.run]

/-- C13: for a non-empty message list with `0 ≤ current < len(messages)`,
`next` and `prev` keep the cursor in that range, `next` moving it up by one
except at the last index and `prev` down by one except at 0, and neither
touches the messages; `fixCurrent` brings any integer `current` into the
range, leaving a cursor in range where it is, so `messages[current]` exists,
also after the refresh `run`; for an empty list `fixCurrent` sets `current`
to 0, which is not an index of the list. -/
theorem cursor_invariant (l : messageList) :
    (l.messages ≠ [] → 0 ≤ l.current → l.current < (l.messages.length : Int) →
      (0 ≤ l.next.current ∧ l.next.current < (l.next.messages.length : Int) ∧
        (l.current < (l.messages.length : Int) - 1 → l.next.current = l.current + 1) ∧
        (l.current = (l.messages.length : Int) - 1 → l.next.current = l.current) ∧
        l.next.messages = l.messages) ∧
      (0 ≤ l.prev.current ∧ l.prev.current < (l.prev.messages.length : Int) ∧
        (0 < l.current → l.prev.current = l.current - 1) ∧
        (l.current = 0 → l.prev.current = 0) ∧
        l.prev.messages = l.messages) ∧
      l.fixCurrent.current = l.current) ∧
    (l.messages ≠ [] →
      0 ≤ l.fixCurrent.current ∧ l.fixCurrent.current < (l.fixCurrent.messages.length : Int) ∧
      l.fixCurrent.messages = l.messages ∧
      (l.fixCurrent.messages.get? l.fixCurrent.current.toNat).isSome = true) ∧
    (l.messages = [] → l.fixCurrent.current = 0 ∧
      l.fixCurrent.messages.get? l.fixCurrent.current.toNat = none) ∧
    (∀ (get : String → GmailMessage) (res : List GmailMessage), res ≠ [] →
      0 ≤ (run get res (some l)).current ∧
      (run get res (some l)).current < ((run get res (some l)).messages.length : Int) ∧
      (run get res (some l)).marked = l.marked) := by
  have hfix : ∀ k : messageList, k.messages ≠ [] →
      0 ≤ k.fixCurrent.current ∧ k.fixCurrent.current < (k.fixCurrent.messages.length : Int) ∧
      k.fixCurrent.messages = k.messages ∧ k.fixCurrent.marked = k.marked := by
    intro k hk
    have hlen : 0 < k.messages.length := List.length_pos.2 hk
    by_cases h1 : k.current ≥ (k.messages.length : Int)
    · have h2 : ¬ ((k.messages.length : Int) - 1 < 0) := by omega
      have he : k.fixCurrent = { k with current := (k.messages.length : Int) - 1 } := by
        unfold messageList.fixCurrent
        rw [if_pos h1]
        exact if_neg h2
      rw [he]
      exact ⟨by show (0 : Int) ≤ (k.messages.length : Int) - 1; omega,
        by show (k.messages.length : Int) - 1 < (k.messages.length : Int); omega, rfl, rfl⟩
    · by_cases h2 : k.current < 0
      · have he : k.fixCurrent = { k with current := 0 } := by
          unfold messageList.fixCurrent
          rw [if_neg h1]
          exact if_pos h2
        rw [he]
        exact ⟨by show (0 : Int) ≤ 0; omega,
          by show (0 : Int) < (k.messages.length : Int); omega, rfl, rfl⟩
      · have he : k.fixCurrent = k := by
          unfold messageList.fixCurrent
          rw [if_neg h1]
          exact if_neg h2
        rw [he]
        exact ⟨by omega, by omega, rfl, rfl⟩
  refine ⟨?_, ?_, ?_, ?_⟩
  · intro hne h0 hlt
    refine ⟨?_, ?_, ?_⟩
    · by_cases h : l.current < (l.messages.length : Int) - 1
      · have he : l.next = { l with current := l.current + 1 } := by
          unfold messageList.next
          exact if_pos h
        rw [he]
        exact ⟨by show (0 : Int) ≤ l.current + 1; omega,
          by show l.current + 1 < (l.messages.length : Int); omega, fun _ => rfl,
          fun h' => by omega, rfl⟩
      · have he : l.next = l := by
          unfold messageList.next
          exact if_neg h
        rw [he]
        exact ⟨h0, hlt, fun h' => absurd h' h, fun _ => rfl, rfl⟩
    · by_cases h : l.current > 0
      · have he : l.prev = { l with current := l.current - 1 } := by
          unfold messageList.prev
          exact if_pos h
        rw [he]
        exact ⟨by show (0 : Int) ≤ l.current - 1; omega,
          by show l.current - 1 < (l.messages.length : Int); omega, fun _ => rfl,
          fun h' => by omega, rfl⟩
      · have he : l.prev = l := by
          unfold messageList.prev
          exact if_neg h
        rw [he]
        exact ⟨h0, hlt, fun h' => absurd h' h, fun h' => h', rfl⟩
    · have h1 : ¬ l.current ≥ (l.messages.length : Int) := by omega
      have h2 : ¬ l.current < 0 := by omega
      unfold messageList.fixCurrent
      rw [if_neg h1]
      rw [if_neg h2]
  · intro hne
    obtain ⟨h1, h2, h3, _⟩ := hfix l hne
    refine ⟨h1, h2, h3, ?_⟩
    rw [List.get?_eq_getElem?, List.getElem?_eq_getElem (by omega)]
    rfl
  · intro hnil
    have he : l.fixCurrent = { l with current := 0 } := by
      unfold messageList.fixCurrent
      by_cases h1 : l.current ≥ (l.messages.length : Int)
      · rw [if_pos h1]
        have h2 : (l.messages.length : Int) - 1 < 0 := by rw [hnil]; decide
        exact if_pos h2
      · rw [if_neg h1]
        have h2 : l.current < 0 := by
          rw [hnil] at h1
          simp only [List.length_nil, Int.ofNat_zero] at h1
          omega
        exact if_pos h2
    rw [he]
    refine ⟨rfl, ?_⟩
    show l.messages.get? (0 : Int).toNat = none
    rw [hnil]; rfl
  · intro get res hres
    have hne : ({ list get res with current := l.current, marked := l.marked } :
        messageList).messages ≠ [] := by
      show (list get res).messages ≠ []
      rw [list_messages]
      simpa using hres
    obtain ⟨h1, h2, _, h4⟩ := hfix _ hne
    exact ⟨h1, h2, h4⟩

theorem cursor_invariant_witness :
    threeMessages.messages ≠ [] ∧ threeMessages.fixCurrent.current = 2 ∧
      (threeMessages.fixCurrent.messages.get? threeMessages.fixCurrent.current.toNat).isSome
        = true ∧
      (0 : Int) ≤ 2 ∧ (2 : Int) < (threeMessages.messages.length : Int) ∧
      (messageList.next { threeMessages with current := 2 }).current = 2 ∧
      (messageList.prev { threeMessages with current := 2 }).current = 1 :=
  ⟨fun h => List.noConfusion h, by decide,
    ((cursor_invariant threeMessages).2.1 ((fun h => List.noConfusion h))).2.2.2,
    by decide, by decide,
    ((cursor_invariant { threeMessages with current := 2 }).1 ((fun h => List.noConfusion h))
      (by decide) (by decide)).1.2.2.2.1 (by decide),
    ((cursor_invariant { threeMessages with current := 2 }).1 ((fun h => List.noConfusion h))
      (by decide) (by decide)).2.1.2.2.1 (by decide)⟩

/-! ## Paginator -/

theorem ListMessages.loop_length (NewMessage : CmdG → String → Message × CmdG) (c : CmdG)
    (ms : List GmailMessage) : (ListMessages.loop NewMessage c ms).1.length = ms.length := by
  induction ms generalizing c with
  | nil => rfl
  | cons m rest ih => simp [ListMessages.loop, ih]

/-- The `i`-th appended message is what `NewMessage` returns for the ID of
the `i`-th message of the response, called on the connection left by the
calls before it. -/
theorem ListMessages.loop_getElem? (NewMessage : CmdG → String → Message × CmdG) (c : CmdG)
    (ms : List GmailMessage) (i : Nat) (m : GmailMessage) (h : ms[i]? = some m) :
    (ListMessages.loop NewMessage c ms).1[i]?
      = some (NewMessage (ListMessages.loop NewMessage c (ms.take i)).2 m.Id).1 := by
  induction ms generalizing c i with
  | nil => simp at h
  | cons a rest ih =>
    cases i with
    | zero =>
      simp only [List.getElem?_cons_zero, Option.some.injEq] at h
      subst h
      simp [ListMessages.loop]
    | succ j =>
      simp only [List.getElem?_cons_succ] at h
      simp only [ListMessages.loop, List.getElem?_cons_succ, List.take_succ_cons]
      exact ih _ j h

/-- C11: `ListMessages(label, query, token)` issues exactly one listing
request, for the user "me", with the page token `token`, at most 100
results and the field mask, the query set exactly when `query` is not empty
and the label filter exactly when `label` is not empty. When the request
fails it returns no page and the error "listing messages" wrapping the
transport error; when it succeeds it returns no error and a page whose
`Label` and `Query` are the arguments, whose `Response` is the response and
whose `Messages` has one entry per message of the response, in response
order, the `i`-th being what `NewMessage` returns for the ID of the `i`-th
message. -/
theorem ListMessages_page (NewMessage : CmdG → String → Message × CmdG)
    (Do : UsersMessagesListCall → Except String ListMessagesResponse) (c : CmdG)
    (label query token : String) :
    (ListMessages NewMessage Do c label query token).2.2
      = [ListMessages.call label query token] ∧
    ((ListMessages.call label query token).userId = "me" ∧
      (ListMessages.call label query token).pageToken = some token ∧
      (ListMessages.call label query token).maxResults = some 100 ∧
      (ListMessages.call label query token).fields
        = some "messages,resultSizeEstimate,nextPageToken" ∧
      (query ≠ "" → (ListMessages.call label query token).q = some query) ∧
      (query = "" → (ListMessages.call label query token).q = none) ∧
      (label ≠ "" → (ListMessages.call label query token).labelIds = some [label]) ∧
      (label = "" → (ListMessages.call label query token).labelIds = none)) ∧
    (∀ err, Do (ListMessages.call label query token) = .error err →
      (ListMessages NewMessage Do c label query token).1
        = (none, some { message := "listing messages", cause := err }) ∧
      (ListMessages NewMessage Do c label query token).2.1 = c) ∧
    (∀ res, Do (ListMessages.call label query token) = .ok res →
      ∃ p, (ListMessages NewMessage Do c label query token).1 = (some p, none) ∧
        p.Label = label ∧ p.Query = query ∧ p.Response = res ∧
        p.Messages.length = res.Messages.length ∧
        ∀ i m, res.Messages[i]? = some m →
          p.Messages[i]?
            = some (NewMessage (ListMessages.loop NewMessage c (res.Messages.take i)).2
                m.Id).1) := by
  refine ⟨?_, ?_, ?_, ?_⟩
  · unfold ListMessages
    cases hdo : Do (ListMessages.call label query token) <;> simp only [hdo]
  · unfold ListMessages.call
    by_cases hq : query = "" <;> by_cases hl : label = "" <;>
      simp [hq, hl, email, pageSize]
  · intro err herr
    have he : ListMessages NewMessage Do c label query token
        = ((none, some { message := "listing messages", cause := err }), c,
            [ListMessages.call label query token]) := by
      unfold ListMessages
      simp only [herr]
    rw [he]
    exact ⟨rfl, rfl⟩
  · intro res hres
    have he : ListMessages NewMessage Do c label query token
        = ((some { Label := label, Query := query, Response := res,
                   Messages := (ListMessages.loop NewMessage c res.Messages).1 }, none),
            (ListMessages.loop NewMessage c res.Messages).2,
            [ListMessages.call label query token]) := by
      unfold ListMessages
      simp only [hres]
    rw [he]
    refine ⟨_, rfl, rfl, rfl, rfl, ?_, ?_⟩
    · exact ListMessages.loop_length NewMessage c res.Messages
    · intro i m hm
      exact ListMessages.loop_getElem? NewMessage c res.Messages i m hm

theorem ListMessages_page_witness :
    ("in:inbox" ≠ "" ∧ (ListMessages.call "INBOX" "in:inbox" "").q = some "in:inbox") ∧
    (twoMessageRemote (ListMessages.call "INBOX" "in:inbox" "t9") = .error "invalid page token" ∧
      (ListMessages allocMessage twoMessageRemote { nextAddr := 5 } "INBOX" "in:inbox" "t9").1
        = (none, some { message := "listing messages", cause := "invalid page token" })) ∧
    (∃ p, (ListMessages allocMessage twoMessageRemote { nextAddr := 5 } "" "" "").1
        = (some p, none) ∧ p.Label = "" ∧ p.Query = "" ∧ p.Messages.length = 2) :=
  ⟨⟨by decide,
      (ListMessages_page allocMessage twoMessageRemote {} "INBOX" "in:inbox" "").2.1.2.2.2.2.1
        (by decide)⟩,
    ⟨rfl,
      ((ListMessages_page allocMessage twoMessageRemote { nextAddr := 5 } "INBOX" "in:inbox"
        "t9").2.2.1 "invalid page token" rfl).1⟩,
    (((ListMessages_page allocMessage twoMessageRemote { nextAddr := 5 } "" "" "").2.2.2
      { Messages := [{ Id := "a1" }, { Id := "a2" }], NextPageToken := "t2",
        ResultSizeEstimate := 2 } rfl).imp
      (fun _ h => ⟨h.1, h.2.1, h.2.2.1, h.2.2.2.2.1⟩))⟩

/-! ## Sorted labels -/

theorem stringLess.chars_iff (s t : List Char) : stringLess.chars s t = true ↔ s < t := by
  induction s generalizing t with
  | nil =>
    cases t with
    | nil =>
      simp only [stringLess.chars, Bool.false_eq_true, false_iff]
      intro h; cases h
    | cons b bs =>
      simp only [stringLess.chars, true_iff]
      exact List.Lex.nil
  | cons a as ih =>
    cases t with
    | nil =>
      simp only [stringLess.chars, Bool.false_eq_true, false_iff]
      intro h; cases h
    | cons b bs =>
      by_cases h1 : a < b
      · simp only [stringLess.chars, h1, if_true, true_iff]
        exact List.Lex.rel h1
      · by_cases h2 : b < a
        · simp only [stringLess.chars, h1, h2, if_false, if_true, Bool.false_eq_true, false_iff]
          intro h
          cases h with
          | cons h' => exact lt_irrefl _ h2
          | rel h' => exact h1 h'
        · have hab : a = b := le_antisymm (not_lt.1 h2) (not_lt.1 h1)
          subst hab
          simp only [stringLess.chars, h1, if_false]
          rw [ih]
          constructor
          · intro h; exact List.Lex.cons h
          · intro h
            cases h with
            | cons h' => exact h'
            | rel h' => exact absurd h' h1

theorem stringLess_iff (s t : String) : stringLess s t = true ↔ s < t := by
  unfold stringLess
  rw [stringLess.chars_iff, String.lt_iff_toList_lt]
  rfl

theorem Labels.less_asymm (Inbox : String) (a b : Label)
    (hab : ¬ (a.ID = Inbox ∧ b.ID = Inbox)) (h : Labels.less Inbox a b = true) :
    Labels.less Inbox b a = false := by
  unfold Labels.less at h ⊢
  by_cases ha : a.ID = Inbox
  · have hb : ¬ b.ID = Inbox := fun hb => hab ⟨ha, hb⟩
    simp [ha, hb]
  · by_cases hb : b.ID = Inbox
    · simp [ha, hb] at h
    · simp only [ha, hb, if_false] at h ⊢
      rw [stringLess_iff] at h
      cases hlt : stringLess b.Label a.Label with
      | false => rfl
      | true => exact absurd ((stringLess_iff _ _).1 hlt) (lt_asymm h)

theorem Labels.less_negtrans (Inbox : String) (a b c : Label)
    (h : Labels.less Inbox a c = true) :
    Labels.less Inbox a b = true ∨ Labels.less Inbox b c = true := by
  unfold Labels.less at h ⊢
  by_cases ha : a.ID = Inbox
  · simp [ha]
  · by_cases hc : c.ID = Inbox
    · simp [ha, hc] at h
    · by_cases hb : b.ID = Inbox
      · simp [hb]
      · simp only [ha, hb, hc, if_false] at h ⊢
        rw [stringLess_iff] at h ⊢
        rw [stringLess_iff]
        rcases lt_or_le a.Label b.Label with h1 | h1
        · exact Or.inl h1
        · exact Or.inr (lt_of_le_of_lt h1 h)

theorem Labels.less_false_le (Inbox : String) (a b : Label) (ha : a.ID ≠ Inbox)
    (hb : b.ID ≠ Inbox) (h : Labels.less Inbox b a = false) : a.Label ≤ b.Label := by
  unfold Labels.less at h
  simp only [ha, hb, if_false] at h
  apply not_lt.1
  intro hlt
  rw [(stringLess_iff _ _).2 hlt] at h
  cases h

theorem sortSlice.insert_perm {α : Type} (less : α → α → Bool) (x : α) (pre : List α) :
    (sortSlice.insert less x pre).Perm (x :: pre) := by
  induction pre with
  | nil => exact List.Perm.refl _
  | cons y ys ih =>
    by_cases h : less x y = true
    · simp only [sortSlice.insert, h, if_true]
      exact ((List.Perm.cons y ih).trans (List.Perm.swap x y ys))
    · simp only [sortSlice.insert, h]
      exact List.Perm.refl _

theorem sortSlice.fold_perm {α : Type} (less : α → α → Bool) (xs acc : List α) :
    (xs.foldl (fun pre x => sortSlice.insert less x pre) acc).Perm (acc ++ xs) := by
  induction xs generalizing acc with
  | nil => simp
  | cons x rest ih =>
    simp only [List.foldl_cons]
    refine (ih _).trans ?_
    refine (List.Perm.append_right rest (sortSlice.insert_perm less x acc)).trans ?_
    simp only [List.cons_append]
    exact List.perm_middle.symm

theorem sortSlice_perm {α : Type} (less : α → α → Bool) (xs : List α) :
    (sortSlice less xs).Perm xs := by
  unfold sortSlice
  refine (List.reverse_perm _).trans ?_
  simpa using sortSlice.fold_perm less xs []

theorem sortSlice.insert_sorted (Inbox : String) (x : Label) (pre : List Label)
    (hcount : List.countP (fun l => decide (l.ID = Inbox)) (x :: pre) ≤ 1)
    (hpre : pre.Pairwise (fun a b => Labels.less Inbox a b = false)) :
    (sortSlice.insert (Labels.less Inbox) x pre).Pairwise
      (fun a b => Labels.less Inbox a b = false) := by
  induction pre with
  | nil => simp [sortSlice.insert]
  | cons y ys ih =>
    have hys : ys.Pairwise (fun a b => Labels.less Inbox a b = false) :=
      (List.pairwise_cons.1 hpre).2
    have hy : ∀ z ∈ ys, Labels.less Inbox y z = false := (List.pairwise_cons.1 hpre).1
    have hxy : ¬ (x.ID = Inbox ∧ y.ID = Inbox) := by
      rintro ⟨h1, h2⟩
      simp [List.countP_cons, h1, h2] at hcount
    have hcount' : List.countP (fun l => decide (l.ID = Inbox)) (x :: ys) ≤ 1 := by
      simp only [List.countP_cons] at hcount ⊢
      omega
    by_cases h : Labels.less Inbox x y = true
    · simp only [sortSlice.insert, h, if_true]
      refine List.pairwise_cons.2 ⟨?_, ih hcount' hys⟩
      intro z hz
      rcases List.mem_cons.1 ((sortSlice.insert_perm _ x ys).mem_iff.1 hz) with hzx | hzy
      · rw [hzx]
        exact Labels.less_asymm Inbox x y hxy h
      · exact hy z hzy
    · simp only [sortSlice.insert, h]
      have hfalse : Labels.less Inbox x y = false := by
        cases hv : Labels.less Inbox x y with
        | false => rfl
        | true => exact absurd hv h
      refine List.pairwise_cons.2 ⟨?_, hpre⟩
      intro z hz
      rcases List.mem_cons.1 hz with hzy | hzy
      · rw [hzy]; exact hfalse
      · cases hv : Labels.less Inbox x z with
        | false => rfl
        | true =>
          rcases Labels.less_negtrans Inbox x y z hv with h1 | h1
          · rw [hfalse] at h1; cases h1
          · rw [hy z hzy] at h1; cases h1

theorem sortSlice.fold_sorted (Inbox : String) (xs acc : List Label)
    (hcount : List.countP (fun l => decide (l.ID = Inbox)) (acc ++ xs) ≤ 1)
    (hacc : acc.Pairwise (fun a b => Labels.less Inbox a b = false)) :
    (xs.foldl (fun pre x => sortSlice.insert (Labels.less Inbox) x pre) acc).Pairwise
      (fun a b => Labels.less Inbox a b = false) := by
  induction xs generalizing acc with
  | nil => exact hacc
  | cons x rest ih =>
    simp only [List.foldl_cons]
    have hc : List.countP (fun l => decide (l.ID = Inbox)) (acc ++ x :: rest)
        = List.countP (fun l => decide (l.ID = Inbox)) (x :: acc)
          + List.countP (fun l => decide (l.ID = Inbox)) rest := by
      simp only [List.countP_append, List.countP_cons]
      omega
    apply ih
    · rw [List.countP_append, (sortSlice.insert_perm _ x acc).countP_eq]
      omega
    · apply sortSlice.insert_sorted Inbox x acc _ hacc
      omega

/-- The insertion sort meets the promise of `sort.Slice` when at most one
label has the ID `Inbox`. -/
theorem sortSlice_sorted (Inbox : String) (xs : List Label)
    (hcount : List.countP (fun l => decide (l.ID = Inbox)) xs ≤ 1) :
    (sortSlice (Labels.less Inbox) xs).Pairwise (fun a b => Labels.less Inbox b a = false) := by
  unfold sortSlice
  rw [List.pairwise_reverse]
  exact sortSlice.fold_sorted Inbox xs [] (by simpa using hcount) List.Pairwise.nil

/-- What the promise of `sort.Slice` gives for the comparison of `Labels`. -/
theorem inboxFirst_of_sorted (Inbox : String) (out : List Label)
    (hs : out.Pairwise (fun a b => Labels.less Inbox b a = false)) :
    InboxFirstByName Inbox out := by
  cases out with
  | nil => exact ⟨by simp, [], Or.inl rfl, by simp, List.Pairwise.nil⟩
  | cons h t =>
    have ht : ∀ z ∈ t, Labels.less Inbox z h = false := (List.pairwise_cons.1 hs).1
    have hts : t.Pairwise (fun a b => Labels.less Inbox b a = false) :=
      (List.pairwise_cons.1 hs).2
    have hnot : ∀ z ∈ t, z.ID ≠ Inbox := by
      intro z hz hzi
      have := ht z hz
      simp [Labels.less, hzi] at this
    refine ⟨?_, ?_⟩
    · intro l hl hli
      rcases List.mem_cons.1 hl with hlh | hlt
      · rw [hlh]; rfl
      · exact absurd hli (hnot l hlt)
    · by_cases hh : h.ID = Inbox
      · refine ⟨t, Or.inr ⟨h, hh, rfl⟩, hnot, ?_⟩
        exact List.Pairwise.imp_of_mem
          (fun {a b} ha hb hab => Labels.less_false_le Inbox a b (hnot a ha) (hnot b hb) hab)
          hts
      · have hall : ∀ z ∈ h :: t, z.ID ≠ Inbox := by
          intro z hz
          rcases List.mem_cons.1 hz with hzh | hzt
          · rw [hzh]; exact hh
          · exact hnot z hzt
        refine ⟨h :: t, Or.inl rfl, hall, ?_⟩
        exact List.Pairwise.imp_of_mem
          (fun {a b} ha hb hab => Labels.less_false_le Inbox a b (hall a ha) (hall b hb) hab)
          hs

theorem countP_le_one_of_nodup_map {α : Type} (f : α → String) (v : String) (l : List α)
    (h : (l.map f).Nodup) : List.countP (fun x => decide (f x = v)) l ≤ 1 := by
  induction l with
  | nil => simp
  | cons x xs ih =>
    rw [List.map_cons, List.nodup_cons] at h
    by_cases hx : f x = v
    · have hzero : List.countP (fun x => decide (f x = v)) xs = 0 := by
        rw [List.countP_eq_zero]
        intro y hy
        simp only [decide_eq_true_eq]
        intro hyv
        exact h.1 (List.mem_map.2 ⟨y, hy, hyv.trans hx.symm⟩)
      simp [List.countP_cons, hx, hzero]
    · have := ih h.2
      simp only [List.countP_cons, hx, decide_False]
      simpa using this

theorem GoMap.mem_of_get? {α : Type} (m : GoMap α) (k : String) (v : α)
    (h : GoMap.get? m k = some v) : (k, v) ∈ m := by
  induction m with
  | nil => simp [GoMap.get?] at h
  | cons e t ih =>
    obtain ⟨k', v'⟩ := e
    by_cases hk : k' = k
    · simp only [GoMap.get?, hk, if_true, Option.some.injEq] at h
      rw [hk, h]
      exact List.mem_cons_self _ _
    · simp only [GoMap.get?, hk, if_false] at h
      exact List.mem_cons_of_mem _ (ih h)

theorem GoMap.get?_of_mem {α : Type} (m : GoMap α) (k : String) (v : α)
    (hnd : (m.map Prod.fst).Nodup) (h : (k, v) ∈ m) : GoMap.get? m k = some v := by
  induction m with
  | nil => cases h
  | cons e t ih =>
    obtain ⟨k', v'⟩ := e
    rw [List.map_cons, List.nodup_cons] at hnd
    rcases List.mem_cons.1 h with he | ht
    · simp only [Prod.mk.injEq] at he
      simp [GoMap.get?, he.1, he.2]
    · have hk : ¬ k' = k := by
        intro hk
        exact hnd.1 (List.mem_map.2 ⟨(k, v), ht, hk.symm⟩)
      simp only [GoMap.get?, hk, if_false]
      exact ih hnd.2 ht

theorem GoMap.mem_set {α : Type} (m : GoMap α) (k : String) (v : α) (e : String × α)
    (h : e ∈ GoMap.set m k v) : e = (k, v) ∨ e ∈ m := by
  induction m with
  | nil =>
    simp only [GoMap.set, List.mem_singleton] at h
    exact Or.inl h
  | cons x t ih =>
    obtain ⟨k', v'⟩ := x
    by_cases hk : k' = k
    · simp only [GoMap.set, hk, if_true] at h
      rcases List.mem_cons.1 h with h1 | h1
      · exact Or.inl h1
      · exact Or.inr (List.mem_cons_of_mem _ h1)
    · simp only [GoMap.set, hk, if_false] at h
      rcases List.mem_cons.1 h with h1 | h1
      · exact Or.inr (h1 ▸ List.mem_cons_self _ _)
      · rcases ih h1 with h2 | h2
        · exact Or.inl h2
        · exact Or.inr (List.mem_cons_of_mem _ h2)

theorem GoMap.nodup_keys_set {α : Type} (m : GoMap α) (k : String) (v : α)
    (h : (m.map Prod.fst).Nodup) : ((GoMap.set m k v).map Prod.fst).Nodup := by
  induction m with
  | nil => simp [GoMap.set]
  | cons x t ih =>
    obtain ⟨k', v'⟩ := x
    rw [List.map_cons, List.nodup_cons] at h
    by_cases hk : k' = k
    · simp only [GoMap.set, hk, if_true, List.map_cons, List.nodup_cons]
      exact ⟨hk ▸ h.1, h.2⟩
    · simp only [GoMap.set, hk, if_false, List.map_cons, List.nodup_cons]
      refine ⟨?_, ih h.2⟩
      intro hmem
      obtain ⟨e, he, hek⟩ := List.mem_map.1 hmem
      rcases GoMap.mem_set t k v e he with h1 | h1
      · rw [h1] at hek
        exact hk hek.symm
      · exact h.1 (List.mem_map.2 ⟨e, h1, hek⟩)

theorem LabelCacheWF.set (c : CmdG) (k : String) (v : Label) (h : LabelCacheWF c)
    (hv : v.ID = k) (c' : CmdG) (hc : c'.labelCache = GoMap.set c.labelCache k v) :
    LabelCacheWF c' := by
  unfold LabelCacheWF
  rw [hc]
  refine ⟨GoMap.nodup_keys_set _ k v h.1, ?_⟩
  intro e he
  rcases GoMap.mem_set _ k v e he with h1 | h1
  · rw [h1]; exact hv
  · exact h.2 e h1

theorem LabelCacheWF.of_eq (c c' : CmdG) (h : LabelCacheWF c)
    (hc : c'.labelCache = c.labelCache) : LabelCacheWF c' := by
  unfold LabelCacheWF at h ⊢
  rw [hc]; exact h

theorem LabelCacheWF.apply (c : CmdG) (op : CacheOp) (h : LabelCacheWF c) :
    LabelCacheWF (op.apply c) := by
  cases op with
  | messageCache msg =>
    apply LabelCacheWF.of_eq c _ h
    simp only [CacheOp.apply]
    cases hm : c.messageCache.get? msg.ID with
    | some u => rw [MessageCache_hit c msg u hm]
    | none => rw [MessageCache_miss c msg hm]
  | labelCache label =>
    simp only [CacheOp.apply]
    cases hl : c.labelCache.get? label.ID with
    | some u => rw [LabelCache_hit c label u hl]; exact h
    | none =>
      rw [LabelCache_miss c label hl]
      exact LabelCacheWF.set c label.ID label h rfl _ rfl
  | loadLabels res =>
    cases res with
    | error e => exact h
    | ok labels =>
      simp only [CacheOp.apply, LoadLabels]
      induction labels generalizing c with
      | nil => exact h
      | cons l ls ih =>
        simp only [List.foldl_cons]
        apply ih
        exact LabelCacheWF.set c l.Id _ h rfl _ rfl

theorem LabelCacheWF.applyAll (c : CmdG) (ops : List CacheOp) (h : LabelCacheWF c) :
    LabelCacheWF (CacheOp.applyAll c ops) := by
  induction ops generalizing c with
  | nil => exact h
  | cons op rest ih => exact ih _ (LabelCacheWF.apply c op h)

/-- C12: for a label cache as the connection keeps it (every label stored
under its own ID, which `New`, `MessageCache`, `LabelCache` and `LoadLabels`
maintain) and whatever order the map is visited in, `Labels` leaves the
connection unchanged and returns a permutation of the cached labels, each
exactly once and nothing else, in which the label whose ID is `Inbox` comes
first if there is one and the other labels follow in non-decreasing order
of their names. The order follows from the promise of `sort.Slice` alone: it
holds for every slice in which no element is less than one before it. -/
theorem Labels_sorted_permutation (Inbox : String) (c : CmdG) (order : List Label)
    (hwf : LabelCacheWF c) (horder : order.Perm (c.labelCache.map Prod.snd)) :
    (Labels Inbox c order).2 = c ∧
    (Labels Inbox c order).1.Perm (c.labelCache.map Prod.snd) ∧
    (Labels Inbox c order).1.Nodup ∧
    (∀ l, l ∈ (Labels Inbox c order).1 ↔ c.labelCache.get? l.ID = some l) ∧
    InboxFirstByName Inbox (Labels Inbox c order).1 ∧
    (∀ out : List Label, out.Pairwise (fun a b => Labels.less Inbox b a = false) →
      InboxFirstByName Inbox out) ∧
    (LabelCacheWF {} ∧ ∀ ops, LabelCacheWF (CacheOp.applyAll c ops)) := by
  have hids : (c.labelCache.map Prod.snd).map (fun l : Label => l.ID) = c.labelCache.map Prod.fst := by
    rw [List.map_map]
    apply List.map_congr_left
    intro e he
    exact hwf.2 e he
  have hndids : ((c.labelCache.map Prod.snd).map (fun l : Label => l.ID)).Nodup := by
    rw [hids]; exact hwf.1
  have hnd : (c.labelCache.map Prod.snd).Nodup := List.Nodup.of_map _ hndids
  have hperm : (Labels Inbox c order).1.Perm (c.labelCache.map Prod.snd) :=
    (sortSlice_perm _ order).trans horder
  have hcount : List.countP (fun l => decide (l.ID = Inbox)) order ≤ 1 := by
    rw [horder.countP_eq]
    exact countP_le_one_of_nodup_map (fun l : Label => l.ID) Inbox _ hndids
  refine ⟨rfl, hperm, hperm.nodup_iff.2 hnd, ?_, ?_, inboxFirst_of_sorted Inbox, ?_,
    fun ops => LabelCacheWF.applyAll c ops hwf⟩
  · intro l
    rw [hperm.mem_iff]
    constructor
    · intro hl
      obtain ⟨e, he, hel⟩ := List.mem_map.1 hl
      have hid := hwf.2 e he
      apply GoMap.get?_of_mem _ _ _ hwf.1
      rw [← hel, hid]
      exact he
    · intro hl
      exact List.mem_map.2 ⟨(l.ID, l), GoMap.mem_of_get? _ _ _ hl, rfl⟩
  · exact inboxFirst_of_sorted Inbox _ (sortSlice_sorted Inbox order hcount)
  · exact ⟨List.nodup_nil, fun e he => by cases he⟩

theorem Labels_sorted_permutation_witness :
    LabelCacheWF fourLabels ∧
      (fourLabels.labelCache.map Prod.snd).reverse.Perm (fourLabels.labelCache.map Prod.snd) ∧
      (Labels "INBOX" fourLabels (fourLabels.labelCache.map Prod.snd).reverse).1.map
        (fun l : Label => l.Label) = ["INBOX", "Home", "SENT", "Work"] ∧
      InboxFirstByName "INBOX"
        (Labels "INBOX" fourLabels (fourLabels.labelCache.map Prod.snd).reverse).1 :=
  ⟨⟨by decide, by decide⟩, List.reverse_perm _, by decide,
    (Labels_sorted_permutation "INBOX" fourLabels (fourLabels.labelCache.map Prod.snd).reverse
      ⟨by decide, by decide⟩ (List.reverse_perm _)).2.2.2.2.1⟩

end Cmdg
